import Mathlib

/-!
Frontend command driver (`Init/Lean/Elab/Frontend.c`)

A shallow embedding of the compiled frontend driver: the command context
derivation, the generic runner, the position update, the exception
classifier, one step of the command loop, the loop itself and the test
entry point.

Conventions of the embedding.

* Runtime objects that the module only passes along (environment, syntax,
  messages, ...) are the fields of a `Carrier`.
* Functions of other modules that the code calls are the fields of
  `Externals` (command loop) and `SetupExternals` (entry point).
* The generated code has, for most steps, one branch that updates an object
  in place (`lean_is_exclusive`) and one that copies it. Both compute the same
  value; the embedding has that value once.
* A result object `ctor 0 {a, s}` is `Result.ok a s`, `ctor 1 {e, s}` is
  `Result.error e s`. Field 1 is the state for both tags (`Result.state`).
* The message log is a list whose head is the most recent message: the code
  adds a message `m` to a log `l` by allocating `ctor 1 {m, l}`.
-/

namespace Frontend

/-- Types of the runtime objects that the driver never inspects. -/
structure Carrier where
  /-- Environments -/
  Env : Type
  /-- Messages (the diagnostics of the message log) -/
  Message : Type
  /-- Syntax trees of commands and of the header -/
  Stx : Type
  /-- File maps of the parser context -/
  FileMap : Type
  /-- Token tables of the parser context -/
  Tokens : Type
  /-- Payload of the exceptions with constructor tag 3 -/
  MetaException : Type
  /-- Message data that is built outside of this module -/
  Data : Type
  /-- Option sets -/
  Options : Type
  /-- Heap objects stored in the remaining fields of a scope -/
  ScopeObj : Type
  /-- Errors of the setup steps -/
  IOError : Type
  /-- The io state token -/
  World : Type

/-- Result objects: constructor tag 0 is `ok`, constructor tag 1 is `error`;
field 0 is the value or the exception, field 1 is the state. -/
inductive Result (ε σ α : Type) where
  | ok (a : α) (s : σ)
  | error (e : ε) (s : σ)

/-- Field 1 of a result object, which is the state for both tags. -/
def Result.state {ε σ α : Type} : Result ε σ α → σ
  | .ok _ s => s
  | .error _ s => s

/-- Tag test `lean_obj_tag(r) == 0` on a result object. -/
def Result.isOk {ε σ α : Type} : Result ε σ α → Bool
  | .ok _ _ => true
  | .error _ _ => false

/-- Formats; the driver only allocates constructor tag 2 (a text). -/
inductive Format where
  | text (s : String)

/-- Message data: constructor tag 0 wraps a format; `ext` stands for data that
other modules hand in (the result of `toMessageData`, the closed default
message). -/
inductive MessageData (K : Carrier) where
  | ofFormat (f : Format)
  | ext (d : K.Data)

/-- Kernel exception node carried by exceptions of tag 2: its constructor tag
and field 0. The code reads field 0 only when the tag is 11. -/
structure KernelException where
  tag : Nat
  field0 : String

/-- Elaboration exceptions as the classifier sees them. `msg` has constructor
tag 1, `kernel` tag 2, `meta` tag 3, `silent` tag 5. `other tag ex` stands for
an exception object with any other constructor tag (the `default` arm of the
switch); field 0 of such an object is a string. -/
inductive Exception (K : Carrier) where
  | msg (ex : K.Message)
  | kernel (ex : KernelException)
  | meta (ex : K.MetaException)
  | silent
  | other (tag : Nat) (ex : String)

/-- Scopes: objects with seven fields. Field 0 is the kind, field 2 the
options; the others hold either the scalar `lean_box(0)` (here `none`) or a
heap object. -/
structure Scope (K : Carrier) where
  kind : String
  field1 : Option K.ScopeObj
  options : K.Options
  field3 : Option K.ScopeObj
  field4 : Option K.ScopeObj
  field5 : Option K.ScopeObj
  field6 : Option K.ScopeObj

/-- Module parser state. Field 0 is the position, the only field that the
driver reads; the rest is carried along. -/
structure ModuleParserState where
  pos : Nat
  recovering : Bool
deriving DecidableEq

/-- Parser context: field 0 is the input, field 1 the file name, field 2 the
file map, field 3 the token table. -/
structure ParserContextCore (K : Carrier) where
  input : String
  fileName : String
  fileMap : K.FileMap
  tokens : K.Tokens

namespace Command

/-- Command context: `ctor 0 {fileName, fileMap}`. -/
structure Context (K : Carrier) where
  fileName : String
  fileMap : K.FileMap

/-- Elaboration state: `ctor 0 {env, messages, cmdPos, scopes}`. -/
structure State (K : Carrier) where
  env : K.Env
  messages : List K.Message
  cmdPos : Nat
  scopes : List (Scope K)

end Command

/-- Driver state: `ctor 0 {commandState, parserState}`. -/
structure State (K : Carrier) where
  commandState : Command.State K
  parserState : ModuleParserState

/-- Functions of other modules that the command loop calls. -/
structure Externals (K : Carrier) where
  /-- `l_Lean_Parser_parseCommand___main(env, ctx, parserState, messages)`
  returns `(command, (parserState, messages))`. -/
  parseCommand : K.Env → ParserContextCore K → ModuleParserState → List K.Message →
    K.Stx × ModuleParserState × List K.Message
  /-- `l_Lean_Parser_isEOI` -/
  isEOI : K.Stx → Bool
  /-- `l_Lean_Parser_isExitCommand` -/
  isExitCommand : K.Stx → Bool
  /-- `l_Lean_Elab_Command_elabCommand(stx, ctx, state)` returns a result
  object. -/
  elabCommand : K.Stx → Command.Context K → Command.State K →
    Result (Exception K) (Command.State K) Unit
  /-- `l_Lean_Elab_mkMessage___at_Lean_Elab_Command_elabCommand___spec__3
  (data, pos?, ctx, state)`: the code reads field 0 (the message) and field 1
  (the state) of what it returns, without a tag test. -/
  mkMessage : MessageData K → Option Nat → Command.Context K → Command.State K →
    K.Message × Command.State K
  /-- `l_Lean_Meta_Exception_toMessageData` -/
  toMessageData : K.MetaException → MessageData K
  /-- The constant `l_Lean_Elab_logElabException___rarg___closed__3`: the
  default message. -/
  defaultMessage : MessageData K

/-- `l___private_Init_Lean_Elab_Frontend_1__getCmdContext`: a fresh command
context from fields 1 and 2 of the parser context, paired with the state. -/
def getCmdContext {K : Carrier} (x_1 : ParserContextCore K) (x_2 : State K) :
    Command.Context K × State K :=
  let x_3 := x_1.fileName
  let x_4 := x_1.fileMap
  let x_5 : Command.Context K := { fileName := x_3, fileMap := x_4 }
  (x_5, x_2)

/-- `l_Lean_Elab_Frontend_runCommandElabM___rarg`: run the action `x_1` on the
derived context and on field 0 of the driver state, and put the state it
returns back into field 0, keeping the tag of the result. -/
def runCommandElabM {K : Carrier} {α : Type}
    (x_1 : Command.Context K → Command.State K → Result (Exception K) (Command.State K) α)
    (x_2 : ParserContextCore K) (x_3 : State K) : Result (Exception K) (State K) α :=
  let x_4 := getCmdContext x_2 x_3
  let x_5 := x_4.2
  let x_6 := x_4.1
  match x_1 x_6 x_5.commandState with
  | .ok x_12 x_13 => .ok x_12 { x_5 with commandState := x_13 }
  | .error x_17 x_18 => .error x_17 { x_5 with commandState := x_18 }

/-- `l_Lean_Elab_Frontend_elabCommandAtFrontend`: the same code with the call of
`l_Lean_Elab_Command_elabCommand` in the place of the closure application. -/
def elabCommandAtFrontend {K : Carrier} (X : Externals K) (x_1 : K.Stx)
    (x_2 : ParserContextCore K) (x_3 : State K) : Result (Exception K) (State K) Unit :=
  let x_4 := getCmdContext x_2 x_3
  let x_5 := x_4.2
  let x_6 := x_4.1
  match X.elabCommand x_1 x_6 x_5.commandState with
  | .ok x_12 x_13 => .ok x_12 { x_5 with commandState := x_13 }
  | .error x_17 x_18 => .error x_17 { x_5 with commandState := x_18 }

/-- `l_Lean_Elab_Frontend_updateCmdPos___rarg`: field 2 of the command state
becomes field 0 of the parser state. -/
def updateCmdPos {K : Carrier} (x_1 : State K) : Result (Exception K) (State K) Unit :=
  let x_18 := x_1.commandState
  let x_19 := x_1.parserState
  let x_24 := x_19.pos
  let x_25 : Command.State K :=
    { env := x_18.env, messages := x_18.messages, cmdPos := x_24, scopes := x_18.scopes }
  .ok () { commandState := x_25, parserState := x_19 }

/-- The shared tail of the `mkMessage` arms of the classifier: the message
that `mkMessage` returns (field 0) is put in front of the log of the state
that it returns (field 1). -/
def logMkMessage {K : Carrier} (x_54 : K.Message × Command.State K) :
    Result (Exception K) (Command.State K) Unit :=
  let x_71 := x_54.1
  let x_70 := x_54.2
  .ok () { env := x_70.env, messages := x_71 :: x_70.messages, cmdPos := x_70.cmdPos,
           scopes := x_70.scopes }

/-- `l_Lean_Elab_logElabException___at_Lean_Elab_Frontend_processCommand___spec__1`:
the exception classifier, a switch on the constructor tag of the exception. -/
def logElabException {K : Carrier} (X : Externals K) (x_1 : Exception K)
    (x_2 : Command.Context K) (x_3 : Command.State K) :
    Result (Exception K) (Command.State K) Unit :=
  match x_1 with
  | .msg x_35 =>
    .ok () { env := x_3.env, messages := x_35 :: x_3.messages, cmdPos := x_3.cmdPos,
             scopes := x_3.scopes }
  | .kernel x_49 =>
    if x_49.tag = 11 then
      let x_50 := x_49.field0
      let x_51 := Format.text x_50
      let x_52 : MessageData K := .ofFormat x_51
      logMkMessage (X.mkMessage x_52 none x_2 x_3)
    else
      -- block_34
      let x_6 := X.defaultMessage
      logMkMessage (X.mkMessage x_6 none x_2 x_3)
  | .meta x_82 =>
    let x_83 := X.toMessageData x_82
    logMkMessage (X.mkMessage x_83 none x_2 x_3)
  | .silent => .ok () x_3
  | .other _ x_114 =>
    let x_115 := Format.text x_114
    let x_116 : MessageData K := .ofFormat x_115
    logMkMessage (X.mkMessage x_116 none x_2 x_3)

/-- `l_Lean_Elab_Frontend_processCommand`: one step of the command loop. -/
def processCommand {K : Carrier} (X : Externals K) (x_1 : ParserContextCore K)
    (x_2 : State K) : Result (Exception K) (State K) Bool :=
  let x_3 := updateCmdPos x_2
  let x_5 := x_3.state
  let x_7 := x_5.commandState
  let x_8 := x_5.parserState
  let x_10 := x_7.env
  let x_11 := x_7.messages
  let x_12 := X.parseCommand x_10 x_1 x_8 x_11
  let x_13 := x_12.2
  let x_14 := x_12.1
  let x_15 := x_13.1
  let x_16 := x_13.2
  let x_17 : State K :=
    { commandState := { env := x_10, messages := x_16, cmdPos := x_7.cmdPos,
                        scopes := x_7.scopes },
      parserState := x_15 }
  if X.isEOI x_14 = false then
    if X.isExitCommand x_14 = false then
      match elabCommandAtFrontend X x_14 x_1 x_17 with
      | .ok _ x_25 => .ok false x_25
      | .error x_29 x_30 =>
        let x_31 := getCmdContext x_1 x_30
        let x_32 := x_31.2
        let x_33 := x_31.1
        let x_35 := x_32.commandState
        let x_36 := logElabException X x_29 x_33 x_35
        let x_38 := x_36.state
        .ok false { commandState := x_38, parserState := x_32.parserState }
    else
      .ok true x_17
  else
    .ok true x_17

/-- `l_Lean_Elab_Frontend_processCommandsAux___main___rarg`: the loop
`_start: ... goto _start`. Each unit of fuel pays for one pass through
`_start`; `none` means that the fuel ran out before the loop returned. The
code reads field 0 of the step's result as the boxed `done` flag without a tag
test (a step never returns tag 1, see `processCommand`); the `error` arm only
makes the match total. -/
def processCommandsAux {K : Carrier} (X : Externals K) (x_1 : ParserContextCore K) :
    Nat → State K → Option (Result (Exception K) (State K) Unit)
  | 0, _ => none
  | fuel + 1, x_2 =>
    match processCommand X x_1 x_2 with
    | .ok x_5 x_6 =>
      if x_5 = false then processCommandsAux X x_1 fuel x_6
      else some (.ok () x_6)
    | .error e s => some (.error e s)

/-- Functions and constants of other modules that the entry point uses. -/
structure SetupExternals (K : Carrier) where
  /-- `lean_mk_empty_environment(trustLevel, world)` returns an io result. -/
  mkEmptyEnvironment : Nat → K.World → Result K.IOError K.World K.Env
  /-- The constant `l_Lean_Elab_parseImports___closed__1`: the file name used
  when the caller gives none. -/
  defaultFileName : String
  /-- `l_Lean_Parser_mkParserContextCore(env, input, fileName)` -/
  mkParserContextCore : K.Env → String → String → ParserContextCore K
  /-- `l_Lean_Parser_parseHeader(env, ctx)` returns
  `(header, (parserState, messages))`. -/
  parseHeader : K.Env → ParserContextCore K → K.Stx × ModuleParserState × List K.Message
  /-- `l_Lean_Elab_processHeader(header, messages, ctx, trustLevel, world)`
  returns an io result that carries `(env, messages)`. -/
  processHeader : K.Stx → List K.Message → ParserContextCore K → Nat → K.World →
    Result K.IOError K.World (K.Env × List K.Message)
  /-- The constant `l_Lean_Options_empty` -/
  optionsEmpty : K.Options

/-- `_init_l_Lean_Elab_testFrontend___closed__1`: the string "root". -/
def testFrontend_closed_1 : String := "root"

/-- `_init_l_Lean_Elab_testFrontend___closed__2`: the scope object
`ctor 0 {"root", box 0, Options.empty, box 0, box 0, box 0, box 0}`. -/
def testFrontend_closed_2 {K : Carrier} (S : SetupExternals K) : Scope K :=
  { kind := testFrontend_closed_1, field1 := none, options := S.optionsEmpty,
    field3 := none, field4 := none, field5 := none, field6 := none }

/-- `_init_l_Lean_Elab_testFrontend___closed__3`: the list
`ctor 1 {closed__2, box 0}` with that scope as its only element. -/
def testFrontend_closed_3 {K : Carrier} (S : SetupExternals K) : List (Scope K) :=
  [testFrontend_closed_2 S]

/-- The driver state `x_24` that `l_Lean_Elab_testFrontend` allocates for the
loop from the pair `x_16` that `processHeader` returned and the parser state
`x_13` that `parseHeader` returned: `x_23 = ctor 0 {x_19, x_20, x_21, x_22}`
with `x_19`, `x_20` the two fields of `x_16`, `x_21 = lean_unsigned_to_nat(0u)`
and `x_22 = closed__3`, and `x_24 = ctor 0 {x_23, x_13}`. -/
def initialState {K : Carrier} (S : SetupExternals K) (x_16 : K.Env × List K.Message)
    (x_13 : ModuleParserState) : State K :=
  let x_19 := x_16.1
  let x_20 := x_16.2
  let x_21 : Nat := 0
  let x_22 := testFrontend_closed_3 S
  let x_23 : Command.State K :=
    { env := x_19, messages := x_20, cmdPos := x_21, scopes := x_22 }
  { commandState := x_23, parserState := x_13 }

/-- `l_Lean_Elab_testFrontend(input, fileName?, world)`. The fuel is the one of
the command loop; `none` means that the loop did not return within it. The
code reads field 1 of the loop's result without a tag test. -/
def testFrontend {K : Carrier} (X : Externals K) (S : SetupExternals K) (fuel : Nat)
    (x_1 : String) (x_2 : Option String) (x_3 : K.World) :
    Option (Result K.IOError K.World (K.Env × List K.Message)) :=
  let x_4 : Nat := 0
  match S.mkEmptyEnvironment x_4 x_3 with
  | .ok x_6 x_7 =>
    let x_8 := match x_2 with
      | none => S.defaultFileName
      | some x_57 => x_57
    let x_9 := S.mkParserContextCore x_6 x_1 x_8
    let x_10 := S.parseHeader x_6 x_9
    let x_11 := x_10.2
    let x_12 := x_10.1
    let x_13 := x_11.1
    let x_14 := x_11.2
    match S.processHeader x_12 x_14 x_9 x_4 x_7 with
    | .ok x_16 x_17 =>
      let x_24 : State K := initialState S x_16 x_13
      match processCommandsAux X x_9 fuel x_24 with
      | none => none
      | some x_25 =>
        let x_27 := x_25.state
        let x_29 := x_27.commandState
        let x_30 := x_29.env
        let x_31 := x_29.messages
        some (.ok (x_30, x_31) x_17)
    | .error x_52 x_53 => some (.error x_52 x_53)
  | .error x_59 x_60 => some (.error x_59 x_60)

/-! ## Names for the intermediate values of one step -/

/-- The command `x_14` that `processCommand` gets from the parser in state `s`:
the parser is called with the environment and the log of `s` and with the
parser state of `s`. -/
def nextCommand {K : Carrier} (X : Externals K) (ctx : ParserContextCore K) (s : State K) :
    K.Stx :=
  (X.parseCommand s.commandState.env ctx s.parserState s.commandState.messages).1

/-- The driver state `x_17` that `processCommand` builds after parsing: the
position is the one of the parser state of `s`, the log and the parser state
are the ones the parser returned. -/
def afterParse {K : Carrier} (X : Externals K) (ctx : ParserContextCore K) (s : State K) :
    State K :=
  { commandState :=
      { env := s.commandState.env,
        messages := (X.parseCommand s.commandState.env ctx s.parserState
                      s.commandState.messages).2.2,
        cmdPos := s.parserState.pos,
        scopes := s.commandState.scopes },
    parserState := (X.parseCommand s.commandState.env ctx s.parserState
                      s.commandState.messages).2.1 }

/-- The command context that a step derives from the parser context. -/
def cmdContext {K : Carrier} (ctx : ParserContextCore K) : Command.Context K :=
  { fileName := ctx.fileName, fileMap := ctx.fileMap }

/-- A regular command: neither end of input nor an exit command. -/
def isRegular {K : Carrier} (X : Externals K) (c : K.Stx) : Prop :=
  X.isEOI c = false ∧ X.isExitCommand c = false

instance {K : Carrier} (X : Externals K) (c : K.Stx) : Decidable (isRegular X c) := by
  unfold isRegular; infer_instance

/-- The result of the elaborator call of a step in state `s`. -/
def elabResult {K : Carrier} (X : Externals K) (ctx : ParserContextCore K) (s : State K) :
    Result (Exception K) (Command.State K) Unit :=
  X.elabCommand (nextCommand X ctx s) (cmdContext ctx) (afterParse X ctx s).commandState

/-! ## A small concrete instance -/

/-- Carrier of the examples: environments are lists of declaration numbers,
messages, syntax and data are numbers. -/
@[reducible] def demoK : Carrier :=
  { Env := List Nat, Message := Nat, Stx := Nat, FileMap := Unit, Tokens := Unit,
    MetaException := Nat, Data := Nat, Options := Unit, ScopeObj := Unit,
    IOError := Nat, World := Unit }

/-- Command stream of the examples: command `0` is the end of input, `1` is
the exit command, every other number is a regular command. -/
def demoStream : List Nat := [5, 7, 1, 9, 6]

/-- Externals of the examples. The parser returns the command at the current
position of `demoStream` and advances by one. The elaborator adds the command
to the environment; on command `7` it does so and then fails with the silent
exception, on command `8` it fails with an exception of tag 4. `mkMessage`
returns the state it is given. -/
def demoX : Externals demoK :=
  { parseCommand := fun _ _ ps msgs => (demoStream.getD ps.pos 0, { ps with pos := ps.pos + 1 }, msgs)
    isEOI := fun c => c == 0
    isExitCommand := fun c => c == 1
    elabCommand := fun c _ s =>
      if c = 7 then .error .silent { s with env := c :: s.env }
      else if c = 8 then .error (.other 4 "failed") { s with env := c :: s.env }
      else .ok () { s with env := c :: s.env }
    mkMessage := fun d _ _ s =>
      (match d with
        | .ofFormat (.text t) => t.length
        | .ext n => n, s)
    toMessageData := fun e => .ext e
    defaultMessage := .ext 0 }

/-- Parser context of the examples. -/
def demoCtx : ParserContextCore demoK :=
  { input := "", fileName := "demo", fileMap := (), tokens := () }

/-- Driver state of the examples at position `p` with environment `env` and
log `msgs`. -/
def demoState (p : Nat) (env : List Nat) (msgs : List Nat) : State demoK :=
  { commandState := { env := env, messages := msgs, cmdPos := 0, scopes := [] },
    parserState := { pos := p, recovering := false } }

/-! ## The loop: states of the iterations and the sequential reading -/

/-- The driver state at the start of iteration `n` of the loop that starts in
`s`: field 1 of the result of a step is the input of the next pass through
`_start` (`x_2 = x_6; goto _start`). -/
def stepN {K : Carrier} (X : Externals K) (ctx : ParserContextCore K) :
    Nat → State K → State K
  | 0, s => s
  | n + 1, s => stepN X ctx n (processCommand X ctx s).state

/-- Sequential reading of the loop, following the words of the specification:
`ElabInOrder X ctx cs s t` says that, from the driver state `s`, the parser
yields the commands of `cs` one after the other, each of them regular, that the
elaborator succeeds on each of them, each call receiving the elaboration state
that the previous call returned with `cmdPos` and the log refreshed from the
parser, and that `t` is the driver state after the last of them. -/
inductive ElabInOrder {K : Carrier} (X : Externals K) (ctx : ParserContextCore K) :
    List K.Stx → State K → State K → Prop where
  | nil (s : State K) : ElabInOrder X ctx [] s s
  | cons (c : K.Stx) (cs : List K.Stx) (s t : State K) (es : Command.State K)
      (hparse : (X.parseCommand s.commandState.env ctx s.parserState
                  s.commandState.messages).1 = c)
      (hreg : isRegular X c)
      (hsucc : X.elabCommand c { fileName := ctx.fileName, fileMap := ctx.fileMap }
                { env := s.commandState.env,
                  messages := (X.parseCommand s.commandState.env ctx s.parserState
                                s.commandState.messages).2.2,
                  cmdPos := s.parserState.pos,
                  scopes := s.commandState.scopes } = .ok () es)
      (hrest : ElabInOrder X ctx cs
                { commandState := es,
                  parserState := (X.parseCommand s.commandState.env ctx s.parserState
                                    s.commandState.messages).2.1 } t) :
      ElabInOrder X ctx (c :: cs) s t

/-! ## Names for the intermediate values of the classifier -/

/-- The message data that the classifier hands to `mkMessage` for the
exception `e`; `none` on the two arms (tag 1, tag 5) that do not call
`mkMessage`. -/
def classifierData {K : Carrier} (X : Externals K) : Exception K → Option (MessageData K)
  | .msg _ => none
  | .kernel x_49 =>
    some (if x_49.tag = 11 then .ofFormat (.text x_49.field0) else X.defaultMessage)
  | .meta x_82 => some (X.toMessageData x_82)
  | .silent => none
  | .other _ x_114 => some (.ofFormat (.text x_114))

/-- The log that the classifier extends: the log of the state `mkMessage`
returns on the arms that call it, the log of the given state on the others. -/
def classifierBase {K : Carrier} (X : Externals K) (e : Exception K)
    (c : Command.Context K) (s : Command.State K) : List K.Message :=
  match classifierData X e with
  | none => s.messages
  | some d => (X.mkMessage d none c s).2.messages

/-- Externals of the examples whose elaborator also logs the command it
elaborates, and never fails. -/
def demoXlog : Externals demoK :=
  { demoX with
    elabCommand := fun c _ s => .ok () { s with env := c :: s.env, messages := c :: s.messages } }

/-- Externals of the examples whose parser yields the regular command `7` at
every position, so that the end of input is never reached; the elaborator of
`demoX` fails on each of them. -/
def demoXloop : Externals demoK :=
  { demoX with
    parseCommand := fun _ _ ps msgs => (7, { ps with pos := ps.pos + 1 }, msgs) }

/-! ## Names for the intermediate values of the entry point -/

/-- The file name `x_8` that the entry point resolves from its optional
argument `x_2`. -/
def resolvedFileName {K : Carrier} (S : SetupExternals K) (x_2 : Option String) : String :=
  match x_2 with
  | none => S.defaultFileName
  | some x_57 => x_57

/-- The join point `block_55` of the entry point: what it computes once the
environment `x_6`, the io state `x_7` and the parser context `x_9` are
there. -/
def testFrontend_block_55 {K : Carrier} (X : Externals K) (S : SetupExternals K) (fuel : Nat)
    (x_6 : K.Env) (x_7 : K.World) (x_9 : ParserContextCore K) :
    Option (Result K.IOError K.World (K.Env × List K.Message)) :=
  match S.processHeader (S.parseHeader x_6 x_9).1 (S.parseHeader x_6 x_9).2.2 x_9 0 x_7 with
  | .ok x_16 x_17 =>
    (processCommandsAux X x_9 fuel (initialState S x_16 (S.parseHeader x_6 x_9).2.1)).map
      (fun x_25 => .ok (x_25.state.commandState.env, x_25.state.commandState.messages) x_17)
  | .error x_52 x_53 => some (.error x_52 x_53)

/-- Setup externals of the examples. The empty environment is `[]`; the header
is the length of the input; the header parser returns the parser state at
position 3 and an empty log; `processHeader` fails with error `4` on the header
`0` and otherwise returns the environment that holds the header, and the log
it was given. -/
def demoS : SetupExternals demoK :=
  { mkEmptyEnvironment := fun _ w => .ok [] w
    defaultFileName := "<input>"
    mkParserContextCore := fun _ input fileName =>
      { input := input, fileName := fileName, fileMap := (), tokens := () }
    parseHeader := fun _ ctx => (ctx.input.length, { pos := 3, recovering := false }, [])
    processHeader := fun hdr msgs _ _ w =>
      if hdr = 0 then .error 4 w else .ok ([hdr], msgs) w
    optionsEmpty := () }

/-- Setup externals of the examples whose environment creation fails with
error `3`. -/
def demoSfail : SetupExternals demoK :=
  { demoS with mkEmptyEnvironment := fun _ w => .error 3 w }

/-- Externals of the examples whose elaborator logs the number of scopes of
the state it receives, and never fails. -/
def demoXscopes : Externals demoK :=
  { demoX with
    elabCommand := fun _ _ s => .ok () { s with messages := s.scopes.length :: s.messages } }

/-- The elaboration state that a step in the driver state `s` hands to the
elaborator, read off the step itself: the elaboration state of the result of
`processCommand` when the elaborator is the one that returns the state it
receives. -/
def elabInput {K : Carrier} (X : Externals K) (ctx : ParserContextCore K) (s : State K) :
    Command.State K :=
  (processCommand { X with elabCommand := fun _ _ u => .ok () u } ctx s).state.commandState

/-- Externals of the examples whose elaborator never fails and writes
`cmdPos := 50` into the state it returns. -/
def demoXwrite : Externals demoK :=
  { demoX with
    elabCommand := fun c _ s => .ok () { s with env := c :: s.env, cmdPos := 50 } }

/-- Externals of the examples whose elaborator logs the message `9` and then
fails with an exception of tag 4, and whose `mkMessage` returns a state with
an empty log. -/
def demoXdrop : Externals demoK :=
  { demoX with
    elabCommand := fun _ _ s => .error (.other 4 "ab") { s with messages := 9 :: s.messages }
    mkMessage := fun _ _ _ s => (0, { s with messages := [] }) }

/-! ## One step of the loop -/

theorem processCommand_eq {K : Carrier} (X : Externals K) (ctx : ParserContextCore K)
    (s : State K) :
    processCommand X ctx s =
      if X.isEOI (nextCommand X ctx s) = false then
        if X.isExitCommand (nextCommand X ctx s) = false then
          match elabResult X ctx s with
          | .ok _ t => .ok false { commandState := t, parserState := (afterParse X ctx s).parserState }
          | .error e t =>
            .ok false { commandState := (logElabException X e (cmdContext ctx) t).state,
                        parserState := (afterParse X ctx s).parserState }
        else .ok true (afterParse X ctx s)
      else .ok true (afterParse X ctx s) := by
  simp only [processCommand, elabCommandAtFrontend, getCmdContext, updateCmdPos, Result.state,
    elabResult, nextCommand, afterParse, cmdContext]
  split
  · split
    · generalize X.elabCommand _ _ _ = r
      cases r <;> rfl
    · rfl
  · rfl

/-- The classifier always builds a result object of tag 0. -/
theorem logElabException_ok {K : Carrier} (X : Externals K) (e : Exception K)
    (c : Command.Context K) (s : Command.State K) :
    logElabException X e c s = .ok () (logElabException X e c s).state := by
  cases e with
  | kernel k => simp only [logElabException, logMkMessage]; split <;> rfl
  | _ => rfl

/-- The environment of the state the classifier returns, when `mkMessage`
keeps the environment. -/
theorem logElabException_env {K : Carrier} (X : Externals K) (e : Exception K)
    (c : Command.Context K) (s : Command.State K)
    (hmk : ∀ d p c t, (X.mkMessage d p c t).2.env = t.env) :
    (logElabException X e c s).state.env = s.env := by
  cases e with
  | kernel k =>
    simp only [logElabException, logMkMessage]
    split <;> simp [Result.state, hmk]
  | _ => simp [logElabException, logMkMessage, Result.state, hmk]

/-! ## C1 -/

/-- C1, as stated, fails: in the example the elaborator fails on command `7`
and hands back a state whose environment has `7` added; the state that
`processCommand` returns has that environment, not the one from before the
command. -/
theorem processCommand_failure_env_counterexample :
    isRegular demoX (nextCommand demoX demoCtx (demoState 1 [5] [])) ∧
    elabResult demoX demoCtx (demoState 1 [5] []) =
      .error .silent { env := [7, 5], messages := [], cmdPos := 1, scopes := [] } ∧
    (processCommand demoX demoCtx (demoState 1 [5] [])).state.commandState.env = [7, 5] ∧
    (processCommand demoX demoCtx (demoState 1 [5] [])).state.commandState.env ≠
      (demoState 1 [5] []).commandState.env := by
  refine ⟨by decide, rfl, rfl, by decide⟩

/-- C1 (amended): when the elaborator fails on a regular command with
exception `e` and state `t`, and `mkMessage` returns the environment of the
state it is given, the environment of the state that `processCommand` returns
is the environment of `t`, the state handed back with the failure; it is the
environment from before the command when `t` has kept that one. -/
theorem processCommand_failure_env {K : Carrier} (X : Externals K)
    (ctx : ParserContextCore K) (s : State K) (e : Exception K) (t : Command.State K)
    (hreg : isRegular X (nextCommand X ctx s))
    (hfail : elabResult X ctx s = .error e t)
    (hmk : ∀ d p c u, (X.mkMessage d p c u).2.env = u.env) :
    (processCommand X ctx s).state.commandState.env = t.env ∧
    (t.env = s.commandState.env →
      (processCommand X ctx s).state.commandState.env = s.commandState.env) := by
  have h : (processCommand X ctx s).state.commandState.env = t.env := by
    rw [processCommand_eq, if_pos hreg.1, if_pos hreg.2, hfail]
    exact logElabException_env X e (cmdContext ctx) t hmk
  exact ⟨h, fun ht => h.trans ht⟩

theorem processCommand_failure_env_witness :
    (processCommand demoX demoCtx (demoState 1 [5] [])).state.commandState.env = [7, 5] ∧
    (([7, 5] : List Nat) = [5] →
      (processCommand demoX demoCtx (demoState 1 [5] [])).state.commandState.env = [5]) :=
  processCommand_failure_env demoX demoCtx (demoState 1 [5] []) .silent
    { env := [7, 5], messages := [], cmdPos := 1, scopes := [] }
    (by decide) rfl (fun _ _ _ _ => rfl)

/-! ## C2 -/

/-- C2: on a regular command `processCommand` returns a result of tag 0 with
`done = false`, whatever the elaborator returns (success, or failure with any
exception), and the loop goes on with the state of that result. -/
theorem processCommand_regular_ok {K : Carrier} (X : Externals K)
    (ctx : ParserContextCore K) (s : State K)
    (hreg : isRegular X (nextCommand X ctx s)) :
    ∃ s', processCommand X ctx s = .ok false s' ∧
      ∀ fuel, processCommandsAux X ctx (fuel + 1) s = processCommandsAux X ctx fuel s' := by
  have h : processCommand X ctx s = .ok false (processCommand X ctx s).state := by
    rw [processCommand_eq, if_pos hreg.1, if_pos hreg.2]
    cases elabResult X ctx s <;> rfl
  refine ⟨_, h, fun fuel => ?_⟩
  rw [processCommandsAux, h]
  simp [Result.state]

theorem processCommand_regular_ok_witness :
    ∃ s', processCommand demoX demoCtx (demoState 1 [5] []) = .ok false s' ∧
      ∀ fuel, processCommandsAux demoX demoCtx (fuel + 1) (demoState 1 [5] []) =
        processCommandsAux demoX demoCtx fuel s' :=
  processCommand_regular_ok demoX demoCtx (demoState 1 [5] []) (by decide)

/-! ## C3 -/

/-- C3: `processCommand` returns a result of tag 0 whose `done` flag is true
exactly when the parsed command satisfies `isEOI` or `isExitCommand`. -/
theorem processCommand_done_iff {K : Carrier} (X : Externals K)
    (ctx : ParserContextCore K) (s : State K) :
    ∃ d s', processCommand X ctx s = .ok d s' ∧
      (d = true ↔ (X.isEOI (nextCommand X ctx s) = true ∨
                   X.isExitCommand (nextCommand X ctx s) = true)) ∧
      (d = false ↔ isRegular X (nextCommand X ctx s)) := by
  rw [processCommand_eq]
  unfold isRegular
  cases h1 : X.isEOI (nextCommand X ctx s) <;> cases h2 : X.isExitCommand (nextCommand X ctx s)
  · cases elabResult X ctx s with
    | ok a t => exact ⟨false, _, rfl, by simp, by simp⟩
    | error e t => exact ⟨false, _, rfl, by simp, by simp⟩
  · exact ⟨true, _, rfl, by simp, by simp⟩
  · exact ⟨true, _, rfl, by simp, by simp⟩
  · exact ⟨true, _, rfl, by simp, by simp⟩

/-! ## C4 -/

/-- C4: when the parsed command is the end of input or an exit command, then
for every elaborator `el` the step returns `done = true` and the state with
the environment and scopes of the input state, `cmdPos` equal to the position
of the input parser state, and the log and parser state that the parser
returned. -/
theorem processCommand_terminal {K : Carrier} (X : Externals K)
    (ctx : ParserContextCore K) (s : State K)
    (hterm : X.isEOI (nextCommand X ctx s) = true ∨
             X.isExitCommand (nextCommand X ctx s) = true) :
    ∀ el : K.Stx → Command.Context K → Command.State K →
        Result (Exception K) (Command.State K) Unit,
      processCommand { X with elabCommand := el } ctx s =
        .ok true
          { commandState :=
              { env := s.commandState.env,
                messages := (X.parseCommand s.commandState.env ctx s.parserState
                              s.commandState.messages).2.2,
                cmdPos := s.parserState.pos,
                scopes := s.commandState.scopes },
            parserState := (X.parseCommand s.commandState.env ctx s.parserState
                              s.commandState.messages).2.1 } := by
  intro el
  rw [processCommand_eq]
  simp only [nextCommand, afterParse] at hterm ⊢
  rcases hterm with h | h
  · simp [h]
  · simp only [h]
    split <;> simp

theorem processCommand_terminal_witness :
    processCommand { demoX with elabCommand := fun _ _ u => .error (.other 0 "") u } demoCtx
        (demoState 2 [5] [3]) =
      .ok true
        { commandState := { env := [5], messages := [3], cmdPos := 2, scopes := [] },
          parserState := { pos := 3, recovering := false } } ∧
    processCommand { demoX with elabCommand := fun _ _ u => .ok () { u with env := [] } } demoCtx
        (demoState 2 [5] [3]) =
      .ok true
        { commandState := { env := [5], messages := [3], cmdPos := 2, scopes := [] },
          parserState := { pos := 3, recovering := false } } :=
  ⟨processCommand_terminal demoX demoCtx (demoState 2 [5] [3]) (Or.inr (by decide)) _,
   processCommand_terminal demoX demoCtx (demoState 2 [5] [3]) (Or.inr (by decide)) _⟩

/-! ## C5 -/

/-- C5: when the parsed command is regular and the elaborator returns
`ok` with state `t`, the step returns `done = false` and the driver state
whose elaboration state is `t` and whose parser state is the one the parser
returned for this command. -/
theorem processCommand_success {K : Carrier} (X : Externals K)
    (ctx : ParserContextCore K) (s : State K) (a : Unit) (t : Command.State K)
    (hreg : isRegular X (nextCommand X ctx s))
    (hok : X.elabCommand (nextCommand X ctx s) { fileName := ctx.fileName, fileMap := ctx.fileMap }
            { env := s.commandState.env,
              messages := (X.parseCommand s.commandState.env ctx s.parserState
                            s.commandState.messages).2.2,
              cmdPos := s.parserState.pos,
              scopes := s.commandState.scopes } = .ok a t) :
    processCommand X ctx s =
      .ok false
        { commandState := t,
          parserState := (X.parseCommand s.commandState.env ctx s.parserState
                            s.commandState.messages).2.1 } := by
  rw [processCommand_eq, if_pos hreg.1, if_pos hreg.2]
  have h : elabResult X ctx s = .ok a t := hok
  rw [h]
  rfl

theorem processCommand_success_witness :
    processCommand demoX demoCtx (demoState 0 [] []) =
      .ok false
        { commandState := { env := [5], messages := [], cmdPos := 0, scopes := [] },
          parserState := { pos := 1, recovering := false } } :=
  processCommand_success demoX demoCtx (demoState 0 [] []) ()
    { env := [5], messages := [], cmdPos := 0, scopes := [] } (by decide) rfl

/-! ## The loop -/

/-- A regular command makes the loop go round once more. -/
theorem processCommandsAux_regular {K : Carrier} (X : Externals K)
    (ctx : ParserContextCore K) (s : State K) (fuel : Nat)
    (hreg : isRegular X (nextCommand X ctx s)) :
    processCommandsAux X ctx (fuel + 1) s =
      processCommandsAux X ctx fuel (processCommand X ctx s).state := by
  have h : processCommand X ctx s = .ok false (processCommand X ctx s).state := by
    rw [processCommand_eq, if_pos hreg.1, if_pos hreg.2]
    cases elabResult X ctx s <;> rfl
  rw [processCommandsAux, h]
  simp [Result.state]

/-- The end of input or an exit command makes the loop return. -/
theorem processCommandsAux_terminal {K : Carrier} (X : Externals K)
    (ctx : ParserContextCore K) (s : State K) (fuel : Nat)
    (hterm : ¬ isRegular X (nextCommand X ctx s)) :
    processCommand X ctx s = .ok true (afterParse X ctx s) ∧
    processCommandsAux X ctx (fuel + 1) s = some (.ok () (afterParse X ctx s)) := by
  have h : processCommand X ctx s = .ok true (afterParse X ctx s) := by
    rw [processCommand_eq]
    unfold isRegular at hterm
    cases h1 : X.isEOI (nextCommand X ctx s) <;>
      cases h2 : X.isExitCommand (nextCommand X ctx s) <;> simp_all
  refine ⟨h, ?_⟩
  rw [processCommandsAux, h]
  simp

/-- The classifier only uses `mkMessage`, `toMessageData` and the default
message of the externals. -/
theorem logElabException_congr {K : Carrier} (X : Externals K)
    (pc : K.Env → ParserContextCore K → ModuleParserState → List K.Message →
      K.Stx × ModuleParserState × List K.Message)
    (el : K.Stx → Command.Context K → Command.State K →
      Result (Exception K) (Command.State K) Unit)
    (e : Exception K) (c : Command.Context K) (s : Command.State K) :
    logElabException { X with parseCommand := pc, elabCommand := el } e c s =
      logElabException X e c s := by
  cases e <;> rfl

/-- A step only depends on the parser at the call it makes, and on the
elaborator at the call it makes when the command is regular. -/
theorem processCommand_congr {K : Carrier} (X : Externals K)
    (pc : K.Env → ParserContextCore K → ModuleParserState → List K.Message →
      K.Stx × ModuleParserState × List K.Message)
    (el : K.Stx → Command.Context K → Command.State K →
      Result (Exception K) (Command.State K) Unit)
    (ctx : ParserContextCore K) (s : State K)
    (hpc : pc s.commandState.env ctx s.parserState s.commandState.messages =
            X.parseCommand s.commandState.env ctx s.parserState s.commandState.messages)
    (hel : isRegular X (nextCommand X ctx s) →
            el (nextCommand X ctx s) (cmdContext ctx) (afterParse X ctx s).commandState =
              elabResult X ctx s) :
    processCommand { X with parseCommand := pc, elabCommand := el } ctx s =
      processCommand X ctx s := by
  have hn : nextCommand { X with parseCommand := pc, elabCommand := el } ctx s =
      nextCommand X ctx s := by simp [nextCommand, hpc]
  have ha : afterParse { X with parseCommand := pc, elabCommand := el } ctx s =
      afterParse X ctx s := by simp [afterParse, hpc]
  rw [processCommand_eq, processCommand_eq X, hn, ha]
  by_cases h1 : X.isEOI (nextCommand X ctx s) = false
  · by_cases h2 : X.isExitCommand (nextCommand X ctx s) = false
    · have he : elabResult { X with parseCommand := pc, elabCommand := el } ctx s =
          elabResult X ctx s := by
        have := hel ⟨h1, h2⟩
        simp only [elabResult, hn, ha]
        exact this
      simp only [h1, h2, if_true, he]
      cases elabResult X ctx s with
      | ok a t => rfl
      | error e t => simp only [logElabException_congr]
    · simp only [h1, h2, if_true, if_false]
      rfl
  · simp only [h1, if_false]
    rfl

/-- While the commands are regular the loop has not returned. -/
theorem processCommandsAux_running {K : Carrier} (X : Externals K)
    (ctx : ParserContextCore K) (k : Nat) :
    ∀ s : State K, (∀ i, i < k → isRegular X (nextCommand X ctx (stepN X ctx i s))) →
      ∀ fuel, fuel ≤ k → processCommandsAux X ctx fuel s = none := by
  induction k with
  | zero =>
    intro s _ fuel hf
    obtain rfl : fuel = 0 := Nat.le_zero.mp hf
    rfl
  | succ k ih =>
    intro s hreg fuel hf
    cases fuel with
    | zero => rfl
    | succ f =>
      rw [processCommandsAux_regular X ctx s f (hreg 0 (Nat.succ_pos k))]
      exact ih _ (fun i hi => hreg (i + 1) (Nat.succ_lt_succ hi)) f (Nat.le_of_succ_le_succ hf)

/-- After `k` regular commands and a terminal one the loop returns the state
of step `k + 1`. -/
theorem processCommandsAux_returns {K : Carrier} (X : Externals K)
    (ctx : ParserContextCore K) (k : Nat) :
    ∀ s : State K, (∀ i, i < k → isRegular X (nextCommand X ctx (stepN X ctx i s))) →
      ¬ isRegular X (nextCommand X ctx (stepN X ctx k s)) →
      ∀ fuel, k < fuel →
        processCommandsAux X ctx fuel s =
          some (.ok () (processCommand X ctx (stepN X ctx k s)).state) := by
  induction k with
  | zero =>
    intro s _ hterm fuel hf
    cases fuel with
    | zero => exact absurd hf (Nat.lt_irrefl 0)
    | succ f =>
      have h := processCommandsAux_terminal X ctx s f hterm
      rw [h.2]
      simp [stepN, h.1, Result.state]
  | succ k ih =>
    intro s hreg hterm fuel hf
    cases fuel with
    | zero => exact absurd hf (Nat.not_lt_zero _)
    | succ f =>
      rw [processCommandsAux_regular X ctx s f (hreg 0 (Nat.succ_pos k))]
      exact ih _ (fun i hi => hreg (i + 1) (Nat.succ_lt_succ hi)) hterm f
        (Nat.lt_of_succ_lt_succ hf)

/-- The loop only depends on the parser and the elaborator at the calls of
its `k + 1` steps. -/
theorem processCommandsAux_congr {K : Carrier} (X : Externals K)
    (pc : K.Env → ParserContextCore K → ModuleParserState → List K.Message →
      K.Stx × ModuleParserState × List K.Message)
    (el : K.Stx → Command.Context K → Command.State K →
      Result (Exception K) (Command.State K) Unit)
    (ctx : ParserContextCore K) (k : Nat) :
    ∀ s : State K, (∀ i, i < k → isRegular X (nextCommand X ctx (stepN X ctx i s))) →
      ¬ isRegular X (nextCommand X ctx (stepN X ctx k s)) →
      (∀ i, i ≤ k →
        pc (stepN X ctx i s).commandState.env ctx (stepN X ctx i s).parserState
            (stepN X ctx i s).commandState.messages =
          X.parseCommand (stepN X ctx i s).commandState.env ctx (stepN X ctx i s).parserState
            (stepN X ctx i s).commandState.messages) →
      (∀ i, i < k →
        el (nextCommand X ctx (stepN X ctx i s)) (cmdContext ctx)
            (afterParse X ctx (stepN X ctx i s)).commandState =
          elabResult X ctx (stepN X ctx i s)) →
      ∀ fuel, processCommandsAux { X with parseCommand := pc, elabCommand := el } ctx fuel s =
        processCommandsAux X ctx fuel s := by
  induction k with
  | zero =>
    intro s _ hterm hpc _ fuel
    cases fuel with
    | zero => rfl
    | succ f =>
      have hstep := processCommand_congr X pc el ctx s (hpc 0 (Nat.le_refl 0))
        (fun h => absurd h hterm)
      have h := processCommandsAux_terminal X ctx s f hterm
      rw [h.2, processCommandsAux, hstep, h.1]
      simp
  | succ k ih =>
    intro s hreg hterm hpc hel fuel
    cases fuel with
    | zero => rfl
    | succ f =>
      have hr := hreg 0 (Nat.succ_pos k)
      have hstep := processCommand_congr X pc el ctx s (hpc 0 (Nat.zero_le _))
        (fun _ => hel 0 (Nat.succ_pos k))
      have hn : nextCommand { X with parseCommand := pc, elabCommand := el } ctx s =
          nextCommand X ctx s := by
        have := hpc 0 (Nat.zero_le _)
        simp only [stepN] at this
        simp [nextCommand, this]
      have hr' : isRegular { X with parseCommand := pc, elabCommand := el }
          (nextCommand { X with parseCommand := pc, elabCommand := el } ctx s) := by
        rw [hn]; exact hr
      rw [processCommandsAux_regular X ctx s f hr,
        processCommandsAux_regular _ ctx s f hr', hstep]
      exact ih _ (fun i hi => hreg (i + 1) (Nat.succ_lt_succ hi)) hterm
        (fun i hi => hpc (i + 1) (Nat.succ_le_succ hi))
        (fun i hi => hel (i + 1) (Nat.succ_lt_succ hi)) f

/-! ## C6 -/

/-- C6: if the commands parsed in the first `k` iterations are regular and the
one parsed in iteration `k + 1` is the end of input or an exit command, the
loop has not returned after `k` or fewer steps, returns after `k + 1` steps
the state produced by step `k + 1`, and returns the same for every parser
`pc` and every elaborator `el` that agree with the given ones on the calls
made in these `k + 1` steps, whatever they do on any other input. -/
theorem processCommandsAux_exit {K : Carrier} (X : Externals K)
    (ctx : ParserContextCore K) (s : State K) (k : Nat)
    (hreg : ∀ i, i < k → isRegular X (nextCommand X ctx (stepN X ctx i s)))
    (hterm : X.isEOI (nextCommand X ctx (stepN X ctx k s)) = true ∨
             X.isExitCommand (nextCommand X ctx (stepN X ctx k s)) = true) :
    (∀ fuel, fuel ≤ k → processCommandsAux X ctx fuel s = none) ∧
    (∀ fuel, k < fuel →
      processCommandsAux X ctx fuel s =
        some (.ok () (processCommand X ctx (stepN X ctx k s)).state)) ∧
    (∀ (pc : K.Env → ParserContextCore K → ModuleParserState → List K.Message →
          K.Stx × ModuleParserState × List K.Message)
       (el : K.Stx → Command.Context K → Command.State K →
          Result (Exception K) (Command.State K) Unit),
      (∀ i, i ≤ k →
        pc (stepN X ctx i s).commandState.env ctx (stepN X ctx i s).parserState
            (stepN X ctx i s).commandState.messages =
          X.parseCommand (stepN X ctx i s).commandState.env ctx (stepN X ctx i s).parserState
            (stepN X ctx i s).commandState.messages) →
      (∀ i, i < k →
        el (nextCommand X ctx (stepN X ctx i s)) (cmdContext ctx)
            (afterParse X ctx (stepN X ctx i s)).commandState =
          elabResult X ctx (stepN X ctx i s)) →
      ∀ fuel, processCommandsAux { X with parseCommand := pc, elabCommand := el } ctx fuel s =
        processCommandsAux X ctx fuel s) := by
  have hterm' : ¬ isRegular X (nextCommand X ctx (stepN X ctx k s)) := by
    unfold isRegular
    rcases hterm with h | h <;> simp [h]
  exact ⟨processCommandsAux_running X ctx k s hreg,
    processCommandsAux_returns X ctx k s hreg hterm',
    fun pc el hpc hel => processCommandsAux_congr X pc el ctx k s hreg hterm' hpc hel⟩

theorem processCommandsAux_exit_witness :
    (∀ fuel, fuel ≤ 2 → processCommandsAux demoX demoCtx fuel (demoState 0 [] []) = none) ∧
    (∀ fuel, 2 < fuel →
      processCommandsAux demoX demoCtx fuel (demoState 0 [] []) =
        some (.ok ()
          { commandState := { env := [7, 5], messages := [], cmdPos := 2, scopes := [] },
            parserState := { pos := 3, recovering := false } })) ∧
    (∀ (pc : List Nat → ParserContextCore demoK → ModuleParserState → List Nat →
          Nat × ModuleParserState × List Nat)
       (el : Nat → Command.Context demoK → Command.State demoK →
          Result (Exception demoK) (Command.State demoK) Unit),
      (∀ i, i ≤ 2 →
        pc (stepN demoX demoCtx i (demoState 0 [] [])).commandState.env demoCtx
            (stepN demoX demoCtx i (demoState 0 [] [])).parserState
            (stepN demoX demoCtx i (demoState 0 [] [])).commandState.messages =
          demoX.parseCommand (stepN demoX demoCtx i (demoState 0 [] [])).commandState.env demoCtx
            (stepN demoX demoCtx i (demoState 0 [] [])).parserState
            (stepN demoX demoCtx i (demoState 0 [] [])).commandState.messages) →
      (∀ i, i < 2 →
        el (nextCommand demoX demoCtx (stepN demoX demoCtx i (demoState 0 [] [])))
            (cmdContext demoCtx)
            (afterParse demoX demoCtx (stepN demoX demoCtx i (demoState 0 [] []))).commandState =
          elabResult demoX demoCtx (stepN demoX demoCtx i (demoState 0 [] []))) →
      ∀ fuel,
        processCommandsAux { demoX with parseCommand := pc, elabCommand := el } demoCtx fuel
            (demoState 0 [] []) =
          processCommandsAux demoX demoCtx fuel (demoState 0 [] [])) :=
  processCommandsAux_exit demoX demoCtx (demoState 0 [] []) 2 (by decide) (Or.inr (by decide))

/-! ## C7 -/

/-- Along the sequential reading the loop makes one step per command. -/
theorem processCommandsAux_of_elabInOrder {K : Carrier} (X : Externals K)
    (ctx : ParserContextCore K) (cs : List K.Stx) (s t : State K)
    (h : ElabInOrder X ctx cs s t) (fuel : Nat) :
    processCommandsAux X ctx (cs.length + fuel) s = processCommandsAux X ctx fuel t ∧
    stepN X ctx cs.length s = t := by
  induction h with
  | nil s => simp [stepN]
  | cons c cs s t es hparse hreg hsucc _ ih =>
    have hr : isRegular X (nextCommand X ctx s) := by
      unfold nextCommand; rw [hparse]; exact hreg
    have he : elabResult X ctx s = .ok () es := by
      simp only [elabResult, nextCommand, afterParse, cmdContext, hparse]
      exact hsucc
    have hstep : (processCommand X ctx s).state =
        { commandState := es,
          parserState := (X.parseCommand s.commandState.env ctx s.parserState
                            s.commandState.messages).2.1 } := by
      rw [processCommand_eq, if_pos hr.1, if_pos hr.2, he]
      rfl
    constructor
    · rw [List.length_cons, Nat.add_right_comm, processCommandsAux_regular X ctx s _ hr, hstep]
      exact ih.1
    · rw [List.length_cons, stepN, hstep]
      exact ih.2

/-- C7: if, from the state `s`, the parser yields the regular commands of
`cs` in order and the elaborator succeeds on each of them, each call
receiving the state returned by the previous call with `cmdPos` and the log
refreshed from the parser (`ElabInOrder`, ending in `t`), and the parser then
yields the end of input, then the loop returns after `cs.length + 1` steps,
and its final elaboration state has the environment and the scopes of `t`,
`cmdPos` and the log refreshed from the parser once more. -/
theorem processCommandsAux_in_order {K : Carrier} (X : Externals K)
    (ctx : ParserContextCore K) (cs : List K.Stx) (s t : State K)
    (h : ElabInOrder X ctx cs s t)
    (heoi : X.isEOI (X.parseCommand t.commandState.env ctx t.parserState
                      t.commandState.messages).1 = true) :
    processCommandsAux X ctx (cs.length + 1) s =
      some (.ok ()
        { commandState :=
            { env := t.commandState.env,
              messages := (X.parseCommand t.commandState.env ctx t.parserState
                            t.commandState.messages).2.2,
              cmdPos := t.parserState.pos,
              scopes := t.commandState.scopes },
          parserState := (X.parseCommand t.commandState.env ctx t.parserState
                            t.commandState.messages).2.1 }) ∧
    stepN X ctx cs.length s = t := by
  have hterm : ¬ isRegular X (nextCommand X ctx t) := by
    unfold isRegular nextCommand
    simp [heoi]
  have h1 := processCommandsAux_of_elabInOrder X ctx cs s t h 1
  refine ⟨?_, h1.2⟩
  rw [h1.1, (processCommandsAux_terminal X ctx t 0 hterm).2]
  rfl

theorem processCommandsAux_in_order_witness :
    processCommandsAux demoX demoCtx ([9, 6].length + 1) (demoState 3 [] []) =
      some (.ok ()
        { commandState := { env := [6, 9], messages := [], cmdPos := 5, scopes := [] },
          parserState := { pos := 6, recovering := false } }) ∧
    stepN demoX demoCtx [9, 6].length (demoState 3 [] []) =
      { commandState := { env := [6, 9], messages := [], cmdPos := 4, scopes := [] },
        parserState := { pos := 5, recovering := false } } :=
  processCommandsAux_in_order demoX demoCtx [9, 6] (demoState 3 [] [])
    { commandState := { env := [6, 9], messages := [], cmdPos := 4, scopes := [] },
      parserState := { pos := 5, recovering := false } }
    (.cons 9 [6] _ _ { env := [9], messages := [], cmdPos := 3, scopes := [] } rfl
      (by decide) rfl
      (.cons 6 [] _ _ { env := [6, 9], messages := [], cmdPos := 4, scopes := [] } rfl
        (by decide) rfl (.nil _)))
    (by decide)

/-! ## C8 -/

/-- C8: when `mkMessage` returns the log of the state it is given, the
classifier returns, for every exception other than the silent one, a state
whose log has exactly one message more than the log of the given state; for
no exception does it add more than one. -/
theorem logElabException_length {K : Carrier} (X : Externals K) (e : Exception K)
    (c : Command.Context K) (s : Command.State K)
    (hmk : ∀ d p c t, (X.mkMessage d p c t).2.messages = t.messages) :
    (e ≠ Exception.silent →
      (logElabException X e c s).state.messages.length = s.messages.length + 1) ∧
    (logElabException X e c s).state.messages.length ≤ s.messages.length + 1 := by
  cases e with
  | kernel k =>
    simp only [logElabException, logMkMessage]
    split <;> simp [Result.state, hmk]
  | silent => simp [logElabException, Result.state]
  | _ => simp [logElabException, logMkMessage, Result.state, hmk]

theorem logElabException_length_witness :
    (Exception.kernel (K := demoK) { tag := 3, field0 := "" } ≠ Exception.silent →
      (logElabException demoX (.kernel { tag := 3, field0 := "" }) (cmdContext demoCtx)
        (demoState 0 [] [4, 2]).commandState).state.messages.length =
      (demoState 0 [] [4, 2]).commandState.messages.length + 1) ∧
    (logElabException demoX (.kernel { tag := 3, field0 := "" }) (cmdContext demoCtx)
        (demoState 0 [] [4, 2]).commandState).state.messages.length ≤
      (demoState 0 [] [4, 2]).commandState.messages.length + 1 :=
  logElabException_length demoX (.kernel { tag := 3, field0 := "" }) (cmdContext demoCtx)
    (demoState 0 [] [4, 2]).commandState (fun _ _ _ _ => rfl)

/-! ## C9 -/

/-- C9: for the silent exception the classifier returns the state it was
given; and when the elaborator fails on a regular command with the silent
exception and state `t`, the step returns `done = false` and the driver state
made of `t` and of the parser state that the parser returned. -/
theorem logElabException_silent {K : Carrier} (X : Externals K)
    (c : Command.Context K) (u : Command.State K)
    (ctx : ParserContextCore K) (s : State K) (t : Command.State K) :
    logElabException X .silent c u = .ok () u ∧
    (isRegular X (nextCommand X ctx s) →
      elabResult X ctx s = .error .silent t →
      processCommand X ctx s =
        .ok false
          { commandState := t,
            parserState := (X.parseCommand s.commandState.env ctx s.parserState
                              s.commandState.messages).2.1 }) := by
  refine ⟨rfl, fun hreg hfail => ?_⟩
  rw [processCommand_eq, if_pos hreg.1, if_pos hreg.2, hfail]
  rfl

theorem logElabException_silent_witness :
    logElabException demoX .silent (cmdContext demoCtx) (demoState 0 [] [4]).commandState =
      .ok () (demoState 0 [] [4]).commandState ∧
    processCommand demoX demoCtx (demoState 1 [5] [4]) =
      .ok false
        { commandState := { env := [7, 5], messages := [4], cmdPos := 1, scopes := [] },
          parserState := { pos := 2, recovering := false } } :=
  ⟨(logElabException_silent demoX (cmdContext demoCtx) (demoState 0 [] [4]).commandState
      demoCtx (demoState 1 [5] [4])
      { env := [7, 5], messages := [4], cmdPos := 1, scopes := [] }).1,
   (logElabException_silent demoX (cmdContext demoCtx) (demoState 0 [] [4]).commandState
      demoCtx (demoState 1 [5] [4])
      { env := [7, 5], messages := [4], cmdPos := 1, scopes := [] }).2 (by decide) rfl⟩

/-! ## C10 -/

/-- C10: for every exception (every constructor, and every tag of the default
arm), every context and every state, the classifier returns a result object of
tag 0 that carries a state. -/
theorem logElabException_never_fails {K : Carrier} (X : Externals K) (e : Exception K)
    (c : Command.Context K) (s : Command.State K) :
    (∃ s', logElabException X e c s = .ok () s') ∧
    (logElabException X e c s).isOk = true ∧
    (∀ (tag : Nat) (ex : String), ∃ s', logElabException X (.other tag ex) c s = .ok () s') := by
  refine ⟨⟨_, logElabException_ok X e c s⟩, ?_, fun tag ex => ⟨_, logElabException_ok X _ c s⟩⟩
  rw [logElabException_ok X e c s]
  rfl

/-! ## C11 -/

/-- C11: for an exception of tag 1 that carries the message `m`, the
classifier returns the given state with `m` itself as the one new entry of the
log; the environment, `cmdPos` and the scopes are those of the given state,
and the result is the same for every `mkMessage`. -/
theorem logElabException_msg {K : Carrier} (X : Externals K) (m : K.Message)
    (c : Command.Context K) (s : Command.State K) :
    logElabException X (.msg m) c s =
      .ok () { env := s.env, messages := m :: s.messages, cmdPos := s.cmdPos,
               scopes := s.scopes } ∧
    ∀ mk : MessageData K → Option Nat → Command.Context K → Command.State K →
        K.Message × Command.State K,
      logElabException { X with mkMessage := mk } (.msg m) c s =
        .ok () { env := s.env, messages := m :: s.messages, cmdPos := s.cmdPos,
                 scopes := s.scopes } :=
  ⟨rfl, fun _ => rfl⟩

/-! ## C12 -/

/-- C12: for an exception of tag 2, if the carried node has constructor tag 11
the logged message is the one `mkMessage` builds, with no position, from the
text in field 0 of the node; if the node has any other tag, field 0 is not
read and the logged message is the one `mkMessage` builds, with no position,
from the default message. -/
theorem logElabException_kernel {K : Carrier} (X : Externals K) (k : KernelException)
    (c : Command.Context K) (s : Command.State K) :
    (k.tag = 11 →
      logElabException X (.kernel k) c s =
        .ok ()
          { env := (X.mkMessage (.ofFormat (.text k.field0)) none c s).2.env,
            messages := (X.mkMessage (.ofFormat (.text k.field0)) none c s).1 ::
              (X.mkMessage (.ofFormat (.text k.field0)) none c s).2.messages,
            cmdPos := (X.mkMessage (.ofFormat (.text k.field0)) none c s).2.cmdPos,
            scopes := (X.mkMessage (.ofFormat (.text k.field0)) none c s).2.scopes }) ∧
    (k.tag ≠ 11 →
      logElabException X (.kernel k) c s =
        .ok ()
          { env := (X.mkMessage X.defaultMessage none c s).2.env,
            messages := (X.mkMessage X.defaultMessage none c s).1 ::
              (X.mkMessage X.defaultMessage none c s).2.messages,
            cmdPos := (X.mkMessage X.defaultMessage none c s).2.cmdPos,
            scopes := (X.mkMessage X.defaultMessage none c s).2.scopes }) := by
  constructor
  · intro h
    simp only [logElabException, logMkMessage, if_pos h]
  · intro h
    simp only [logElabException, logMkMessage, if_neg h]

theorem logElabException_kernel_witness :
    logElabException demoX (.kernel { tag := 11, field0 := "abc" }) (cmdContext demoCtx)
        (demoState 0 [] [4]).commandState =
      .ok () { env := [], messages := [3, 4], cmdPos := 0, scopes := [] } ∧
    logElabException demoX (.kernel { tag := 3, field0 := "abc" }) (cmdContext demoCtx)
        (demoState 0 [] [4]).commandState =
      .ok () { env := [], messages := [0, 4], cmdPos := 0, scopes := [] } :=
  ⟨(logElabException_kernel demoX { tag := 11, field0 := "abc" } (cmdContext demoCtx)
      (demoState 0 [] [4]).commandState).1 rfl,
   (logElabException_kernel demoX { tag := 3, field0 := "abc" } (cmdContext demoCtx)
      (demoState 0 [] [4]).commandState).2 (by decide)⟩

/-! ## C13 -/

/-- C13: for an exception of tag 3 that carries `e`, the logged message is the
one `mkMessage` builds from `toMessageData e`, with no position, in the given
context and state. -/
theorem logElabException_meta {K : Carrier} (X : Externals K) (e : K.MetaException)
    (c : Command.Context K) (s : Command.State K) :
    logElabException X (.meta e) c s =
      .ok ()
        { env := (X.mkMessage (X.toMessageData e) none c s).2.env,
          messages := (X.mkMessage (X.toMessageData e) none c s).1 ::
            (X.mkMessage (X.toMessageData e) none c s).2.messages,
          cmdPos := (X.mkMessage (X.toMessageData e) none c s).2.cmdPos,
          scopes := (X.mkMessage (X.toMessageData e) none c s).2.scopes } :=
  rfl

/-! ## C14 -/

/-- C14, as stated, fails: in the example the exception of tag 4 with text
"failed" is logged as the message built from that text (`6`), not as the one
built from the default message (`0`), and the exception of tag 4 with text
"a" is logged as another message (`1`). -/
theorem logElabException_other_counterexample :
    (logElabException demoX (.other 4 "failed") (cmdContext demoCtx)
        (demoState 0 [] []).commandState).state.messages = [6] ∧
    (logElabException demoX (.other 4 "a") (cmdContext demoCtx)
        (demoState 0 [] []).commandState).state.messages = [1] ∧
    (demoX.mkMessage demoX.defaultMessage none (cmdContext demoCtx)
        (demoState 0 [] []).commandState).1 = 0 ∧
    (logElabException demoX (.other 4 "failed") (cmdContext demoCtx)
        (demoState 0 [] []).commandState).state.messages ≠
      [(demoX.mkMessage demoX.defaultMessage none (cmdContext demoCtx)
        (demoState 0 [] []).commandState).1] ∧
    (logElabException demoX (.other 4 "failed") (cmdContext demoCtx)
        (demoState 0 [] []).commandState).state.messages ≠
      (logElabException demoX (.other 4 "a") (cmdContext demoCtx)
        (demoState 0 [] []).commandState).state.messages := by
  refine ⟨by decide, by decide, by decide, by decide, by decide⟩

/-- C14 (amended): for every exception of the default arm (any tag other than
1, 2, 3 and 5) that carries the text `ex`, the logged message is the one
`mkMessage` builds, with no position, from that text; the default message is
not used, and every such exception that carries the same text logs the same
message, whatever its tag. -/
theorem logElabException_other {K : Carrier} (X : Externals K) (tag : Nat) (ex : String)
    (c : Command.Context K) (s : Command.State K) :
    logElabException X (.other tag ex) c s =
      .ok ()
        { env := (X.mkMessage (.ofFormat (.text ex)) none c s).2.env,
          messages := (X.mkMessage (.ofFormat (.text ex)) none c s).1 ::
            (X.mkMessage (.ofFormat (.text ex)) none c s).2.messages,
          cmdPos := (X.mkMessage (.ofFormat (.text ex)) none c s).2.cmdPos,
          scopes := (X.mkMessage (.ofFormat (.text ex)) none c s).2.scopes } ∧
    (∀ (d : MessageData K) (tag' : Nat),
      logElabException { X with defaultMessage := d } (.other tag' ex) c s =
        logElabException X (.other tag ex) c s) ∧
    (∀ tag' : Nat,
      logElabException X (.other tag' ex) c s = logElabException X (.other tag ex) c s) :=
  ⟨rfl, fun _ _ => rfl, fun _ => rfl⟩

/-! ## C15 -/

/-- C15: the log of the state the classifier returns is the log it builds on
(the one `mkMessage` returned, or the given one where `mkMessage` is not
called), unchanged, with at most one message put in front of it as the most
recent entry: none for the silent exception, exactly one for every other. -/
theorem logElabException_append_only {K : Carrier} (X : Externals K) (e : Exception K)
    (c : Command.Context K) (s : Command.State K) :
    ((logElabException X e c s).state.messages = classifierBase X e c s ∨
      ∃ m, (logElabException X e c s).state.messages = m :: classifierBase X e c s) ∧
    (e = Exception.silent →
      (logElabException X e c s).state.messages = classifierBase X e c s) ∧
    (e ≠ Exception.silent →
      ∃ m, (logElabException X e c s).state.messages = m :: classifierBase X e c s) ∧
    classifierBase X e c s <:+ (logElabException X e c s).state.messages := by
  cases e with
  | silent =>
    refine ⟨Or.inl rfl, fun _ => rfl, fun h => absurd rfl h, ?_⟩
    exact List.suffix_refl _
  | msg m =>
    refine ⟨Or.inr ⟨m, rfl⟩, (fun h => by cases h), fun _ => ⟨m, rfl⟩, ?_⟩
    exact List.suffix_cons m _
  | meta x =>
    refine ⟨Or.inr ⟨_, rfl⟩, (fun h => by cases h), fun _ => ⟨_, rfl⟩, ?_⟩
    exact List.suffix_cons _ _
  | other t x =>
    refine ⟨Or.inr ⟨_, rfl⟩, (fun h => by cases h), fun _ => ⟨_, rfl⟩, ?_⟩
    exact List.suffix_cons _ _
  | kernel k =>
    have h : (logElabException X (.kernel k) c s).state.messages =
        (X.mkMessage (if k.tag = 11 then .ofFormat (.text k.field0) else X.defaultMessage)
            none c s).1 :: classifierBase X (.kernel k) c s := by
      simp only [logElabException, logMkMessage, classifierBase, classifierData]
      split <;> rfl
    refine ⟨Or.inr ⟨_, h⟩, (fun h' => by cases h'), fun _ => ⟨_, h⟩, ?_⟩
    rw [h]
    exact List.suffix_cons _ _

theorem logElabException_append_only_witness :
    (logElabException demoX (.other 4 "failed") (cmdContext demoCtx)
        (demoState 0 [] [4, 2]).commandState).state.messages = [6, 4, 2] ∧
    classifierBase demoX (.other 4 "failed") (cmdContext demoCtx)
        (demoState 0 [] [4, 2]).commandState = [4, 2] ∧
    ∃ m, (logElabException demoX (.other 4 "failed") (cmdContext demoCtx)
        (demoState 0 [] [4, 2]).commandState).state.messages =
      m :: classifierBase demoX (.other 4 "failed") (cmdContext demoCtx)
        (demoState 0 [] [4, 2]).commandState :=
  ⟨by decide, by decide,
   (logElabException_append_only demoX (.other 4 "failed") (cmdContext demoCtx)
      (demoState 0 [] [4, 2]).commandState).2.2.1 (fun h => by cases h)⟩

/-! ## Invariants of the loop -/

/-- The state at the start of iteration `n + 1` is the state that the step of
iteration `n` returns. -/
theorem stepN_succ {K : Carrier} (X : Externals K) (ctx : ParserContextCore K) (n : Nat) :
    ∀ s : State K, stepN X ctx (n + 1) s = (processCommand X ctx (stepN X ctx n s)).state := by
  induction n with
  | zero => intro s; rfl
  | succ n ih =>
    intro s
    have h := ih (processCommand X ctx s).state
    simpa [stepN] using h

/-- A step returns the parser state that the parser returned. -/
theorem processCommand_parserState {K : Carrier} (X : Externals K)
    (ctx : ParserContextCore K) (s : State K) :
    (processCommand X ctx s).state.parserState = (afterParse X ctx s).parserState := by
  rw [processCommand_eq]
  split
  · split
    · cases elabResult X ctx s <;> rfl
    · rfl
  · rfl

/-- The classifier does not shorten the log when `mkMessage` does not. -/
theorem logElabException_length_ge {K : Carrier} (X : Externals K) (e : Exception K)
    (c : Command.Context K) (s : Command.State K)
    (hmk : ∀ d p c t, t.messages.length ≤ (X.mkMessage d p c t).2.messages.length) :
    s.messages.length ≤ (logElabException X e c s).state.messages.length := by
  cases e with
  | silent => exact Nat.le_refl _
  | msg m => simp [logElabException, Result.state]
  | kernel k =>
    simp only [logElabException, logMkMessage]
    split
    · exact Nat.le_succ_of_le (hmk _ _ _ _)
    · exact Nat.le_succ_of_le (hmk _ _ _ _)
  | meta x => exact Nat.le_succ_of_le (hmk _ _ _ _)
  | other t x => exact Nat.le_succ_of_le (hmk _ _ _ _)

/-- One step does not shorten the log when the parser, the elaborator and
`mkMessage` do not. -/
theorem processCommand_length_ge {K : Carrier} (X : Externals K)
    (ctx : ParserContextCore K) (s : State K)
    (hp : ∀ env c ps msgs, msgs.length ≤ (X.parseCommand env c ps msgs).2.2.length)
    (he : ∀ stx c t, t.messages.length ≤ (X.elabCommand stx c t).state.messages.length)
    (hmk : ∀ d p c t, t.messages.length ≤ (X.mkMessage d p c t).2.messages.length) :
    s.commandState.messages.length ≤
      (processCommand X ctx s).state.commandState.messages.length := by
  have h0 : s.commandState.messages.length ≤
      (afterParse X ctx s).commandState.messages.length := hp _ _ _ _
  rw [processCommand_eq]
  split
  · split
    · have h1 := he (nextCommand X ctx s) (cmdContext ctx) (afterParse X ctx s).commandState
      change _ ≤ (elabResult X ctx s).state.messages.length at h1
      cases hr : elabResult X ctx s with
      | ok a t =>
        rw [hr] at h1
        exact Nat.le_trans h0 h1
      | error e t =>
        rw [hr] at h1
        exact Nat.le_trans h0 (Nat.le_trans h1 (logElabException_length_ge X e _ t hmk))
    · exact h0
  · exact h0

/-! ## C16 -/

/-- C16: when the parser, the elaborator (in its `ok` and in its `error`
result) and `mkMessage` each return a log at least as long as the one they
are given, the log of the state a step returns is at least as long as the log
of its input state, the log lengths at the starts of the iterations of the
loop never decrease, and the log of the state the loop returns is at least as
long as the log it started with. -/
theorem processCommand_log_nondecreasing {K : Carrier} (X : Externals K)
    (ctx : ParserContextCore K) (s : State K)
    (hp : ∀ env c ps msgs, msgs.length ≤ (X.parseCommand env c ps msgs).2.2.length)
    (he : ∀ stx c t, t.messages.length ≤ (X.elabCommand stx c t).state.messages.length)
    (hmk : ∀ d p c t, t.messages.length ≤ (X.mkMessage d p c t).2.messages.length) :
    s.commandState.messages.length ≤
      (processCommand X ctx s).state.commandState.messages.length ∧
    (∀ i j, i ≤ j →
      (stepN X ctx i s).commandState.messages.length ≤
        (stepN X ctx j s).commandState.messages.length) ∧
    (∀ fuel r, processCommandsAux X ctx fuel s = some r →
      s.commandState.messages.length ≤ r.state.commandState.messages.length) := by
  refine ⟨processCommand_length_ge X ctx s hp he hmk, ?_, ?_⟩
  · intro i j hij
    induction j with
    | zero =>
      obtain rfl : i = 0 := Nat.le_zero.mp hij
      exact Nat.le_refl _
    | succ j ih =>
      rcases Nat.lt_or_ge i (j + 1) with h | h
      · rw [stepN_succ]
        exact Nat.le_trans (ih (Nat.le_of_lt_succ h))
          (processCommand_length_ge X ctx _ hp he hmk)
      · obtain rfl : i = j + 1 := Nat.le_antisymm hij h
        exact Nat.le_refl _
  · intro fuel
    induction fuel generalizing s with
    | zero => intro r hr; simp [processCommandsAux] at hr
    | succ f ih =>
      intro r hr
      have hstep := processCommand_length_ge X ctx s hp he hmk
      rw [processCommandsAux] at hr
      cases hpc : processCommand X ctx s with
      | ok d s' =>
        rw [hpc] at hr hstep
        cases d with
        | false =>
          simp only [if_true] at hr
          exact Nat.le_trans hstep (ih s' r hr)
        | true =>
          simp only [Bool.true_eq_false, if_false, Option.some.injEq] at hr
          rw [← hr]
          exact hstep
      | error e s' =>
        rw [hpc] at hr hstep
        simp only [Option.some.injEq] at hr
        rw [← hr]
        exact hstep

theorem processCommand_log_nondecreasing_witness :
    (demoState 3 [] []).commandState.messages.length ≤
      (processCommand demoXlog demoCtx (demoState 3 [] [])).state.commandState.messages.length ∧
    (stepN demoXlog demoCtx 0 (demoState 3 [] [])).commandState.messages.length ≤
      (stepN demoXlog demoCtx 2 (demoState 3 [] [])).commandState.messages.length ∧
    (stepN demoXlog demoCtx 2 (demoState 3 [] [])).commandState.messages = [6, 9] :=
  ⟨(processCommand_log_nondecreasing demoXlog demoCtx (demoState 3 [] [])
      (fun _ _ _ _ => Nat.le_refl _) (fun _ _ _ => Nat.le_succ _)
      (fun _ _ _ _ => Nat.le_refl _)).1,
   (processCommand_log_nondecreasing demoXlog demoCtx (demoState 3 [] [])
      (fun _ _ _ _ => Nat.le_refl _) (fun _ _ _ => Nat.le_succ _)
      (fun _ _ _ _ => Nat.le_refl _)).2.1 0 2 (by decide),
   by decide⟩

/-! ## C17 -/

/-- The state that a step hands to the elaborator is the state built after
parsing. -/
theorem elabInput_eq {K : Carrier} (X : Externals K) (ctx : ParserContextCore K)
    (s : State K) :
    elabInput X ctx s = (afterParse X ctx s).commandState := by
  unfold elabInput
  rw [processCommand_eq]
  simp only [elabResult, nextCommand, afterParse, cmdContext]
  split
  · split <;> rfl
  · rfl

/-- C17: when the parser never returns a parser state with a position smaller
than the one it is given, then in every iteration of the loop the state that
the step hands to the elaborator (whatever the elaborator is) has the `cmdPos`
that `updateCmdPos` establishes at the start of that iteration, and these
`cmdPos` values never decrease from one iteration to a later one, whatever
`cmdPos` the elaborator of the run writes into the states it returns. -/
theorem cmdPos_nondecreasing {K : Carrier} (X : Externals K)
    (ctx : ParserContextCore K) (s : State K)
    (hp : ∀ env c ps msgs, ps.pos ≤ (X.parseCommand env c ps msgs).2.1.pos) :
    (∀ (i : Nat) (el : K.Stx → Command.Context K → Command.State K →
          Result (Exception K) (Command.State K) Unit),
      isRegular X (nextCommand X ctx (stepN X ctx i s)) →
      processCommand { X with elabCommand := el } ctx (stepN X ctx i s) =
        match el (nextCommand X ctx (stepN X ctx i s))
            { fileName := ctx.fileName, fileMap := ctx.fileMap }
            (elabInput X ctx (stepN X ctx i s)) with
        | .ok _ t =>
          .ok false
            { commandState := t,
              parserState := (processCommand X ctx (stepN X ctx i s)).state.parserState }
        | .error e t =>
          .ok false
            { commandState :=
                (logElabException X e { fileName := ctx.fileName, fileMap := ctx.fileMap }
                  t).state,
              parserState := (processCommand X ctx (stepN X ctx i s)).state.parserState }) ∧
    (∀ i, (elabInput X ctx (stepN X ctx i s)).cmdPos =
        (updateCmdPos (K := K) (stepN X ctx i s)).state.commandState.cmdPos) ∧
    (∀ i j, i ≤ j →
      (elabInput X ctx (stepN X ctx i s)).cmdPos ≤
        (elabInput X ctx (stepN X ctx j s)).cmdPos) := by
  have key : ∀ i j, i ≤ j →
      (stepN X ctx i s).parserState.pos ≤ (stepN X ctx j s).parserState.pos := by
    intro i j hij
    induction j with
    | zero =>
      obtain rfl : i = 0 := Nat.le_zero.mp hij
      exact Nat.le_refl _
    | succ j ih =>
      rcases Nat.lt_or_ge i (j + 1) with h | h
      · rw [stepN_succ, processCommand_parserState]
        exact Nat.le_trans (ih (Nat.le_of_lt_succ h)) (hp _ _ _ _)
      · obtain rfl : i = j + 1 := Nat.le_antisymm hij h
        exact Nat.le_refl _
  refine ⟨fun i el hreg => ?_, fun i => ?_, fun i j hij => ?_⟩
  · have h1 : X.isEOI (nextCommand X ctx (stepN X ctx i s)) = false := hreg.1
    have h2 : X.isExitCommand (nextCommand X ctx (stepN X ctx i s)) = false := hreg.2
    rw [elabInput_eq, processCommand_parserState, processCommand_eq]
    simp only [nextCommand] at h1 h2
    simp only [elabResult, nextCommand, afterParse, cmdContext, h1, h2, if_true]
    cases el _ _ _ with
    | ok a t => rfl
    | error e t => cases e <;> rfl
  · rw [elabInput_eq]
    rfl
  · rw [elabInput_eq, elabInput_eq]
    exact key i j hij

theorem cmdPos_nondecreasing_witness :
    (stepN demoXwrite demoCtx 1 (demoState 0 [] [])).commandState.cmdPos = 50 ∧
    (elabInput demoXwrite demoCtx (stepN demoXwrite demoCtx 1 (demoState 0 [] []))).cmdPos = 1 ∧
    (elabInput demoXwrite demoCtx (stepN demoXwrite demoCtx 4 (demoState 0 [] []))).cmdPos = 4 ∧
    (elabInput demoXwrite demoCtx (stepN demoXwrite demoCtx 1 (demoState 0 [] []))).cmdPos ≤
      (elabInput demoXwrite demoCtx (stepN demoXwrite demoCtx 4 (demoState 0 [] []))).cmdPos :=
  ⟨by decide, by decide, by decide,
   (cmdPos_nondecreasing demoXwrite demoCtx (demoState 0 [] [])
      (fun _ _ ps _ => Nat.le_succ ps.pos)).2.2 1 4 (by decide)⟩

/-! ## C18 -/

/-- Along the sequential reading an empty log stays empty when the parser and
the successful elaborator keep it empty. -/
theorem elabInOrder_log_empty {K : Carrier} (X : Externals K)
    (ctx : ParserContextCore K) (cs : List K.Stx) (s t : State K)
    (h : ElabInOrder X ctx cs s t)
    (hp : ∀ env c ps, (X.parseCommand env c ps []).2.2 = [])
    (he : ∀ stx c u a u', u.messages = [] → X.elabCommand stx c u = .ok a u' →
            u'.messages = [])
    (hs : s.commandState.messages = []) :
    t.commandState.messages = [] := by
  induction h with
  | nil s => exact hs
  | cons c cs s t es hparse hreg hsucc _ ih =>
    apply ih
    refine he _ _ _ _ _ ?_ hsucc
    simp only [hs]
    exact hp _ _ _

/-- C18, as stated, fails: in the example the parser yields the regular
commands `9` and `6` and then the end of input, the elaborator succeeds on
both, the log is empty at the start, and the log of the state that the loop
returns is `[6, 9]`: the elaborator logged a message with each success. -/
theorem processCommandsAux_log_counterexample :
    ElabInOrder demoXlog demoCtx [9, 6] (demoState 3 [] [])
      { commandState := { env := [6, 9], messages := [6, 9], cmdPos := 4, scopes := [] },
        parserState := { pos := 5, recovering := false } } ∧
    demoXlog.isEOI (nextCommand demoXlog demoCtx
      { commandState := { env := [6, 9], messages := [6, 9], cmdPos := 4, scopes := [] },
        parserState := { pos := 5, recovering := false } }) = true ∧
    (demoState 3 [] []).commandState.messages = [] ∧
    (processCommandsAux demoXlog demoCtx 3 (demoState 3 [] [])).map
      (fun r => r.state.commandState.messages) = some [6, 9] ∧
    (processCommandsAux demoXlog demoCtx 3 (demoState 3 [] [])).map
      (fun r => r.state.commandState.messages) ≠ some [] := by
  refine ⟨?_, by decide, by decide, by decide, by decide⟩
  exact .cons 9 [6] _ _ { env := [9], messages := [9], cmdPos := 3, scopes := [] } rfl
    (by decide) rfl
    (.cons 6 [] _ _ { env := [6, 9], messages := [6, 9], cmdPos := 4, scopes := [] } rfl
      (by decide) rfl (.nil _))

/-- C18 (amended): when the parser returns an empty log whenever it is given
an empty log, and the elaborator, whenever it succeeds on a state with an
empty log, returns a state with an empty log, then for every command stream
that ends in the end of input and on which no elaboration fails, started from
an empty log, the log of the state the loop returns is empty. -/
theorem processCommandsAux_log_empty {K : Carrier} (X : Externals K)
    (ctx : ParserContextCore K) (cs : List K.Stx) (s t : State K)
    (h : ElabInOrder X ctx cs s t)
    (heoi : X.isEOI (X.parseCommand t.commandState.env ctx t.parserState
                      t.commandState.messages).1 = true)
    (hs : s.commandState.messages = [])
    (hp : ∀ env c ps, (X.parseCommand env c ps []).2.2 = [])
    (he : ∀ stx c u a u', u.messages = [] → X.elabCommand stx c u = .ok a u' →
            u'.messages = []) :
    ∃ r, processCommandsAux X ctx (cs.length + 1) s = some (.ok () r) ∧
      r.commandState.messages = [] := by
  have hterm : ¬ isRegular X (nextCommand X ctx t) := by
    unfold isRegular nextCommand
    simp [heoi]
  have ht := elabInOrder_log_empty X ctx cs s t h hp he hs
  refine ⟨afterParse X ctx t, ?_, ?_⟩
  · rw [(processCommandsAux_of_elabInOrder X ctx cs s t h 1).1,
      (processCommandsAux_terminal X ctx t 0 hterm).2]
  · simp only [afterParse, ht]
    exact hp _ _ _

theorem processCommandsAux_log_empty_witness :
    ∃ r, processCommandsAux demoX demoCtx ([9, 6].length + 1) (demoState 3 [] []) =
        some (.ok () r) ∧
      r.commandState.messages = [] :=
  processCommandsAux_log_empty demoX demoCtx [9, 6] (demoState 3 [] [])
    { commandState := { env := [6, 9], messages := [], cmdPos := 4, scopes := [] },
      parserState := { pos := 5, recovering := false } }
    (.cons 9 [6] _ _ { env := [9], messages := [], cmdPos := 3, scopes := [] } rfl
      (by decide) rfl
      (.cons 6 [] _ _ { env := [6, 9], messages := [], cmdPos := 4, scopes := [] } rfl
        (by decide) rfl (.nil _)))
    (by decide) rfl (fun _ _ _ => rfl)
    (fun stx c u a u' hu h => by
      simp only [demoX] at h
      split at h
      · cases h
      · split at h
        · cases h
        · cases h; exact hu)

/-! ## C19 -/

/-- C19: if no command that the parser yields in the iterations of the loop
satisfies `isEOI` or `isExitCommand`, the loop has not returned after any
number of steps, whatever the elaborator returns. -/
theorem processCommandsAux_never_returns {K : Carrier} (X : Externals K)
    (ctx : ParserContextCore K) (s : State K)
    (h : ∀ i, isRegular X (nextCommand X ctx (stepN X ctx i s))) :
    ∀ fuel, processCommandsAux X ctx fuel s = none :=
  fun fuel => processCommandsAux_running X ctx fuel s (fun i _ => h i) fuel (Nat.le_refl _)

theorem processCommandsAux_never_returns_witness :
    processCommandsAux demoXloop demoCtx 50 (demoState 0 [] []) = none :=
  processCommandsAux_never_returns demoXloop demoCtx (demoState 0 [] [])
    (fun _ => ⟨rfl, rfl⟩) 50

/-! ## C20 -/

/-- C20: `elabCommandAtFrontend` is `runCommandElabM` applied to the action
`elabCommand cmd`: the same result object (tag, value or exception, state) for
every command, parser context and driver state. -/
theorem elabCommandAtFrontend_eq_runCommandElabM {K : Carrier} (X : Externals K)
    (cmd : K.Stx) (ctx : ParserContextCore K) (s : State K) :
    elabCommandAtFrontend X cmd ctx s = runCommandElabM (X.elabCommand cmd) ctx s := by
  simp only [elabCommandAtFrontend, runCommandElabM]
  cases X.elabCommand cmd (getCmdContext ctx s).1 (getCmdContext ctx s).2.commandState <;> rfl

/-! ## The entry point -/

/-- Once the empty environment is there, the entry point is `block_55` on the
parser context built from that environment, the input and the resolved file
name. -/
theorem testFrontend_eq {K : Carrier} (X : Externals K) (S : SetupExternals K) (fuel : Nat)
    (input : String) (fn : Option String) (w w1 : K.World) (env : K.Env)
    (hEnv : S.mkEmptyEnvironment 0 w = .ok env w1) :
    testFrontend X S fuel input fn w =
      testFrontend_block_55 X S fuel env w1
        (S.mkParserContextCore env input (resolvedFileName S fn)) := by
  simp only [testFrontend, hEnv, testFrontend_block_55, resolvedFileName, initialState]
  cases S.processHeader _ _ _ 0 w1 with
  | ok p w2 =>
    simp only []
    cases processCommandsAux X _ fuel _ <;> rfl
  | error e w2 => rfl

/-! ## C21 -/

/-- C21: if the creation of the empty environment fails, or if it succeeds
and `processHeader` fails, the entry point returns that failure, with the same
error and the same io state, for every choice of the externals of the command
loop (parser, elaborator, `mkMessage`, ...) and for every fuel of the loop,
also none at all: the loop is never entered. -/
theorem testFrontend_setup_failure {K : Carrier} (S : SetupExternals K)
    (input : String) (fn : Option String) (w : K.World) :
    (∀ e w', S.mkEmptyEnvironment 0 w = .error e w' →
      ∀ (X : Externals K) (fuel : Nat),
        testFrontend X S fuel input fn w = some (.error e w')) ∧
    (∀ env w1 e w2, S.mkEmptyEnvironment 0 w = .ok env w1 →
      S.processHeader
          (S.parseHeader env (S.mkParserContextCore env input (resolvedFileName S fn))).1
          (S.parseHeader env (S.mkParserContextCore env input (resolvedFileName S fn))).2.2
          (S.mkParserContextCore env input (resolvedFileName S fn)) 0 w1 = .error e w2 →
      ∀ (X : Externals K) (fuel : Nat),
        testFrontend X S fuel input fn w = some (.error e w2)) := by
  constructor
  · intro e w' hEnv X fuel
    simp only [testFrontend, hEnv]
  · intro env w1 e w2 hEnv hHdr X fuel
    rw [testFrontend_eq X S fuel input fn w w1 env hEnv]
    simp only [testFrontend_block_55, hHdr]

theorem testFrontend_setup_failure_witness :
    testFrontend demoX demoSfail 0 "ab" none () = some (.error 3 ()) ∧
    testFrontend demoXloop demoSfail 7 "ab" none () = some (.error 3 ()) ∧
    testFrontend demoX demoS 0 "" (some "m") () = some (.error 4 ()) ∧
    testFrontend demoXloop demoS 7 "" (some "m") () = some (.error 4 ()) :=
  ⟨(testFrontend_setup_failure demoSfail "ab" none ()).1 3 () rfl demoX 0,
   (testFrontend_setup_failure demoSfail "ab" none ()).1 3 () rfl demoXloop 7,
   (testFrontend_setup_failure demoS "" (some "m") ()).2 [] () 4 () rfl rfl demoX 0,
   (testFrontend_setup_failure demoS "" (some "m") ()).2 [] () 4 () rfl rfl demoXloop 7⟩

/-! ## C22 -/

/-- C22: when the empty environment is created, `processHeader` succeeds with
the pair `p` and the io state `w2`, and the loop, started from the parser state
that `parseHeader` returned and from the initial elaboration state, returns
`r`, the entry point returns the environment and the log of the elaboration
state of `r`, and `w2`; nothing else of `r` (`cmdPos`, scopes, parser state)
is in the result. -/
theorem testFrontend_result {K : Carrier} (X : Externals K) (S : SetupExternals K)
    (fuel : Nat) (input : String) (fn : Option String) (w w1 w2 : K.World) (env : K.Env)
    (p : K.Env × List K.Message) (r : Result (Exception K) (State K) Unit)
    (hEnv : S.mkEmptyEnvironment 0 w = .ok env w1)
    (hHdr : S.processHeader
          (S.parseHeader env (S.mkParserContextCore env input (resolvedFileName S fn))).1
          (S.parseHeader env (S.mkParserContextCore env input (resolvedFileName S fn))).2.2
          (S.mkParserContextCore env input (resolvedFileName S fn)) 0 w1 = .ok p w2)
    (hLoop : processCommandsAux X (S.mkParserContextCore env input (resolvedFileName S fn)) fuel
          { commandState :=
              { env := p.1, messages := p.2, cmdPos := 0, scopes := testFrontend_closed_3 S },
            parserState :=
              (S.parseHeader env
                (S.mkParserContextCore env input (resolvedFileName S fn))).2.1 } = some r) :
    testFrontend X S fuel input fn w =
      some (.ok (r.state.commandState.env, r.state.commandState.messages) w2) := by
  rw [testFrontend_eq X S fuel input fn w w1 env hEnv]
  simp only [testFrontend_block_55, hHdr, initialState, hLoop, Option.map_some']

theorem testFrontend_result_witness :
    testFrontend demoXlog demoS 3 "ab" none () = some (.ok ([6, 9, 2], [6, 9]) ()) :=
  testFrontend_result demoXlog demoS 3 "ab" none () () () [] ([2], [])
    (.ok ()
      { commandState := { env := [6, 9, 2], messages := [6, 9], cmdPos := 5,
                          scopes := testFrontend_closed_3 demoS },
        parserState := { pos := 6, recovering := false } })
    rfl rfl rfl

/-! ## C23 -/

/-- C24, as stated, fails: the scope stack of the initial state is not empty.
In the example the elaborator logs the number of scopes of the state it
receives; it logs `1` for both commands of the run. -/
theorem testFrontend_initial_scopes_counterexample :
    (initialState demoS ([2], []) { pos := 3, recovering := false }).commandState.scopes ≠ [] ∧
    (initialState demoS ([2], []) { pos := 3, recovering := false }).commandState.scopes.length
      = 1 ∧
    testFrontend demoXscopes demoS 3 "ab" none () = some (.ok ([2], [1, 1]) ()) :=
  ⟨(fun h => by cases h), rfl, rfl⟩

/-- C24 (amended): the initial elaboration state that the entry point builds
for the loop has a scope stack with exactly one scope, the root scope: kind
"root", the empty options, and the scalar 0 in every other field. -/
theorem testFrontend_initial_scopes {K : Carrier} (X : Externals K) (S : SetupExternals K)
    (fuel : Nat) (input : String) (fn : Option String) (w w1 w2 : K.World) (env : K.Env)
    (p : K.Env × List K.Message)
    (hEnv : S.mkEmptyEnvironment 0 w = .ok env w1)
    (hHdr : S.processHeader
          (S.parseHeader env (S.mkParserContextCore env input (resolvedFileName S fn))).1
          (S.parseHeader env (S.mkParserContextCore env input (resolvedFileName S fn))).2.2
          (S.mkParserContextCore env input (resolvedFileName S fn)) 0 w1 = .ok p w2) :
    testFrontend X S fuel input fn w =
      (processCommandsAux X (S.mkParserContextCore env input (resolvedFileName S fn)) fuel
        (initialState S p
          (S.parseHeader env
            (S.mkParserContextCore env input (resolvedFileName S fn))).2.1)).map
        (fun r => .ok (r.state.commandState.env, r.state.commandState.messages) w2) ∧
    (∀ ps, (initialState S p ps).commandState.scopes =
      [{ kind := "root", field1 := none, options := S.optionsEmpty, field3 := none,
         field4 := none, field5 := none, field6 := none }]) ∧
    (∀ ps, (initialState S p ps).commandState.scopes.length = 1) := by
  refine ⟨?_, fun _ => rfl, fun _ => rfl⟩
  rw [testFrontend_eq X S fuel input fn w w1 env hEnv]
  simp only [testFrontend_block_55, hHdr]

theorem testFrontend_initial_scopes_witness :
    testFrontend demoXscopes demoS 3 "ab" none () =
      (processCommandsAux demoXscopes
          { input := "ab", fileName := "<input>", fileMap := (), tokens := () } 3
          (initialState demoS ([2], []) { pos := 3, recovering := false })).map
        (fun r => .ok (r.state.commandState.env, r.state.commandState.messages) ()) ∧
    (initialState demoS ([2], []) { pos := 3, recovering := false }).commandState.scopes.length
      = 1 :=
  ⟨(testFrontend_initial_scopes demoXscopes demoS 3 "ab" none () () () [] ([2], [])
      rfl rfl).1,
   (testFrontend_initial_scopes demoXscopes demoS 3 "ab" none () () () [] ([2], [])
      rfl rfl).2.2 { pos := 3, recovering := false }⟩

/-! ## C25 -/

/-- C25: once the empty environment `env` is there, the entry point goes on
with the parser context built from `env`, the given input and the caller's
file name when one is given, and with the one built from `env`, the input and
the fixed default name when none is given. -/
theorem testFrontend_file_name {K : Carrier} (X : Externals K) (S : SetupExternals K)
    (fuel : Nat) (input : String) (w w1 : K.World) (env : K.Env)
    (hEnv : S.mkEmptyEnvironment 0 w = .ok env w1) :
    (∀ f : String, testFrontend X S fuel input (some f) w =
      testFrontend_block_55 X S fuel env w1 (S.mkParserContextCore env input f)) ∧
    testFrontend X S fuel input none w =
      testFrontend_block_55 X S fuel env w1
        (S.mkParserContextCore env input S.defaultFileName) :=
  ⟨fun f => testFrontend_eq X S fuel input (some f) w w1 env hEnv,
   testFrontend_eq X S fuel input none w w1 env hEnv⟩

theorem testFrontend_file_name_witness :
    testFrontend demoX demoS 3 "ab" (some "m") () =
      testFrontend_block_55 demoX demoS 3 [] ()
        { input := "ab", fileName := "m", fileMap := (), tokens := () } ∧
    testFrontend demoX demoS 3 "ab" none () =
      testFrontend_block_55 demoX demoS 3 [] ()
        { input := "ab", fileName := "<input>", fileMap := (), tokens := () } :=
  ⟨(testFrontend_file_name demoX demoS 3 "ab" () () [] rfl).1 "m",
   (testFrontend_file_name demoX demoS 3 "ab" () () [] rfl).2⟩

/-! ## C26 -/

/-- C26: `updateCmdPos` returns a result of tag 0 whose state has `cmdPos`
equal to the position of the parser state of the given state, and the
environment, the log, the scopes and the parser state of the given state. -/
theorem updateCmdPos_spec {K : Carrier} (s : State K) :
    updateCmdPos s =
      .ok ()
        { commandState :=
            { env := s.commandState.env, messages := s.commandState.messages,
              cmdPos := s.parserState.pos, scopes := s.commandState.scopes },
          parserState := s.parserState } ∧
    (updateCmdPos s).isOk = true ∧
    (updateCmdPos s).state.commandState.cmdPos = s.parserState.pos ∧
    (updateCmdPos s).state.commandState.env = s.commandState.env ∧
    (updateCmdPos s).state.commandState.messages = s.commandState.messages ∧
    (updateCmdPos s).state.commandState.scopes = s.commandState.scopes ∧
    (updateCmdPos s).state.parserState = s.parserState :=
  ⟨rfl, rfl, rfl, rfl, rfl, rfl, rfl⟩

/-! ## C27 -/

/-- The classifier does not use the elaborator of the externals. -/
theorem logElabException_congr_elaborator {K : Carrier} (X : Externals K)
    (el : K.Stx → Command.Context K → Command.State K →
      Result (Exception K) (Command.State K) Unit)
    (e : Exception K) (c : Command.Context K) (s : Command.State K) :
    logElabException { X with elabCommand := el } e c s = logElabException X e c s := by
  cases e <;> rfl

/-- C27: on a regular command, for every elaborator `el`, the step calls `el`
on the parsed command, the derived context and the state whose `cmdPos` is the
position of the parser state from before the command was parsed, whose
environment and scopes are those of the input state and whose log is the one
the parser returned; the result of the step is made from the result of that
call. -/
theorem processCommand_elab_input {K : Carrier} (X : Externals K)
    (ctx : ParserContextCore K) (s : State K)
    (hreg : isRegular X (nextCommand X ctx s)) :
    ∀ el : K.Stx → Command.Context K → Command.State K →
        Result (Exception K) (Command.State K) Unit,
      processCommand { X with elabCommand := el } ctx s =
        match el
            (X.parseCommand s.commandState.env ctx s.parserState s.commandState.messages).1
            { fileName := ctx.fileName, fileMap := ctx.fileMap }
            { env := s.commandState.env,
              messages := (X.parseCommand s.commandState.env ctx s.parserState
                            s.commandState.messages).2.2,
              cmdPos := s.parserState.pos,
              scopes := s.commandState.scopes } with
        | .ok _ t =>
          .ok false
            { commandState := t,
              parserState := (X.parseCommand s.commandState.env ctx s.parserState
                                s.commandState.messages).2.1 }
        | .error e t =>
          .ok false
            { commandState :=
                (logElabException X e { fileName := ctx.fileName, fileMap := ctx.fileMap }
                  t).state,
              parserState := (X.parseCommand s.commandState.env ctx s.parserState
                                s.commandState.messages).2.1 } := by
  intro el
  have h1 : X.isEOI
      (X.parseCommand s.commandState.env ctx s.parserState s.commandState.messages).1 = false :=
    hreg.1
  have h2 : X.isExitCommand
      (X.parseCommand s.commandState.env ctx s.parserState s.commandState.messages).1 = false :=
    hreg.2
  rw [processCommand_eq]
  simp only [elabResult, nextCommand, afterParse, cmdContext, h1, h2, if_true]
  cases el _ _ _ with
  | ok a t => rfl
  | error e t => simp only [logElabException_congr_elaborator]

theorem processCommand_elab_input_witness :
    processCommand
        { demoX with elabCommand := fun _ _ u => .ok () { u with env := u.cmdPos :: u.env } }
        demoCtx (demoState 1 [] [4]) =
      .ok false
        { commandState := { env := [1], messages := [4], cmdPos := 1, scopes := [] },
          parserState := { pos := 2, recovering := false } } :=
  processCommand_elab_input demoX demoCtx (demoState 1 [] [4]) (by decide)
    (fun _ _ u => .ok () { u with env := u.cmdPos :: u.env })

/-! ## C28 -/

/-- The log of the given state is kept by the classifier when `mkMessage`
returns the log it is given. -/
theorem logElabException_suffix {K : Carrier} (X : Externals K) (e : Exception K)
    (c : Command.Context K) (s : Command.State K)
    (hmk : ∀ d p c u, (X.mkMessage d p c u).2.messages = u.messages) :
    s.messages <:+ (logElabException X e c s).state.messages := by
  cases e with
  | silent => exact List.suffix_refl _
  | msg m => exact List.suffix_cons m _
  | kernel k =>
    simp only [logElabException, logMkMessage]
    split
    · simp only [Result.state, hmk]; exact List.suffix_cons _ _
    · simp only [Result.state, hmk]; exact List.suffix_cons _ _
  | meta x =>
    simp only [logElabException, logMkMessage, Result.state, hmk]
    exact List.suffix_cons _ _
  | other t x =>
    simp only [logElabException, logMkMessage, Result.state, hmk]
    exact List.suffix_cons _ _

/-- C28, as stated, fails in its last clause: in the example the elaborator
logs the message `9` on top of the log `[4]` and then fails with an exception
of tag 4; the step returns the state of the classifier for that exception and
that state (the first clause holds), but `mkMessage` returned a state with an
empty log, so the log of the result is `[0]` and the messages `[9, 4]` that
were in the log at the failure are not in it. -/
theorem processCommand_failure_state_counterexample :
    isRegular demoXdrop (nextCommand demoXdrop demoCtx (demoState 0 [] [4])) ∧
    elabResult demoXdrop demoCtx (demoState 0 [] [4]) =
      .error (.other 4 "ab") { env := [], messages := [9, 4], cmdPos := 0, scopes := [] } ∧
    (processCommand demoXdrop demoCtx (demoState 0 [] [4])).state.commandState =
      (logElabException demoXdrop (.other 4 "ab") (cmdContext demoCtx)
        { env := [], messages := [9, 4], cmdPos := 0, scopes := [] }).state ∧
    (processCommand demoXdrop demoCtx (demoState 0 [] [4])).state.commandState.messages = [0] ∧
    ¬ (([9, 4] : List Nat) <:+
      (processCommand demoXdrop demoCtx (demoState 0 [] [4])).state.commandState.messages) := by
  refine ⟨by decide, rfl, rfl, rfl, ?_⟩
  rintro ⟨l, hl⟩
  have h := congrArg List.length hl
  have h0 : (processCommand demoXdrop demoCtx (demoState 0 [] [4])).state.commandState.messages
      = [0] := rfl
  rw [h0] at h
  simp only [List.length_append, List.length_cons, List.length_nil] at h
  omega

/-- C28 (amended): when the elaborator fails on a regular command with the
exception `e` and the state `t`, the elaboration state that the step returns
is the state that the classifier returns for `e`, the derived context and
`t`; so, provided `mkMessage` returns the log of the state it is given, every
message of the log of `t` is in the log of the step's result, in the same
order. -/
theorem processCommand_failure_state {K : Carrier} (X : Externals K)
    (ctx : ParserContextCore K) (s : State K) (e : Exception K) (t : Command.State K)
    (hreg : isRegular X (nextCommand X ctx s))
    (hfail : X.elabCommand (nextCommand X ctx s)
              { fileName := ctx.fileName, fileMap := ctx.fileMap }
              (afterParse X ctx s).commandState = .error e t) :
    processCommand X ctx s =
      .ok false
        { commandState :=
            (logElabException X e { fileName := ctx.fileName, fileMap := ctx.fileMap } t).state,
          parserState := (X.parseCommand s.commandState.env ctx s.parserState
                            s.commandState.messages).2.1 } ∧
    (processCommand X ctx s).state.commandState =
      (logElabException X e { fileName := ctx.fileName, fileMap := ctx.fileMap } t).state ∧
    ((∀ d p c u, (X.mkMessage d p c u).2.messages = u.messages) →
      t.messages <:+ (processCommand X ctx s).state.commandState.messages) := by
  have h : processCommand X ctx s =
      .ok false
        { commandState :=
            (logElabException X e { fileName := ctx.fileName, fileMap := ctx.fileMap } t).state,
          parserState := (X.parseCommand s.commandState.env ctx s.parserState
                            s.commandState.messages).2.1 } := by
    have hf : elabResult X ctx s = .error e t := hfail
    rw [processCommand_eq, if_pos hreg.1, if_pos hreg.2, hf]
    rfl
  refine ⟨h, ?_, fun hmk => ?_⟩
  · rw [h]; rfl
  · rw [h]
    exact logElabException_suffix X e _ t hmk

theorem processCommand_failure_state_witness :
    processCommand
        { demoX with
          elabCommand := fun _ _ u => .error (.other 4 "ab") { u with messages := 9 :: u.messages } }
        demoCtx (demoState 0 [] [4]) =
      .ok false
        { commandState := { env := [], messages := [2, 9, 4], cmdPos := 0, scopes := [] },
          parserState := { pos := 1, recovering := false } } ∧
    ([9, 4] : List Nat) <:+
      (processCommand
        { demoX with
          elabCommand := fun _ _ u => .error (.other 4 "ab") { u with messages := 9 :: u.messages } }
        demoCtx (demoState 0 [] [4])).state.commandState.messages :=
  ⟨(processCommand_failure_state
      { demoX with
        elabCommand := fun _ _ u => .error (.other 4 "ab") { u with messages := 9 :: u.messages } }
      demoCtx (demoState 0 [] [4]) (.other 4 "ab")
      { env := [], messages := [9, 4], cmdPos := 0, scopes := [] } (by decide) rfl).1,
   (processCommand_failure_state
      { demoX with
        elabCommand := fun _ _ u => .error (.other 4 "ab") { u with messages := 9 :: u.messages } }
      demoCtx (demoState 0 [] [4]) (.other 4 "ab")
      { env := [], messages := [9, 4], cmdPos := 0, scopes := [] } (by decide) rfl).2.2
      (fun _ _ _ _ => rfl)⟩

/-! ## C29 -/

/-- C29: for every state and every externals (every parser, elaborator and
`mkMessage`), the parser state in the result of a step is the parser state
that the parser returned for the command of that step, whether the command is
regular or not and whether the elaborator succeeds or fails. -/
theorem processCommand_parse_cursor {K : Carrier} (X : Externals K)
    (ctx : ParserContextCore K) (s : State K) :
    (processCommand X ctx s).state.parserState =
      (X.parseCommand s.commandState.env ctx s.parserState s.commandState.messages).2.1 :=
  processCommand_parserState X ctx s

/-! ## C30 -/

/-- C30: if the action, run on the derived context and on the elaboration
state of the driver state, returns `ok a t`, then `runCommandElabM` returns
`ok a` with the driver state whose elaboration state is `t`; if it returns
`error e t`, then `runCommandElabM` returns `error e` with the driver state
whose elaboration state is `t`; the parser state is the given one in both
cases. -/
theorem runCommandElabM_spec {K : Carrier} {α : Type}
    (act : Command.Context K → Command.State K → Result (Exception K) (Command.State K) α)
    (ctx : ParserContextCore K) (s : State K) :
    (∀ a t, act { fileName := ctx.fileName, fileMap := ctx.fileMap } s.commandState = .ok a t →
      runCommandElabM act ctx s =
        .ok a { commandState := t, parserState := s.parserState }) ∧
    (∀ e t, act { fileName := ctx.fileName, fileMap := ctx.fileMap } s.commandState =
        .error e t →
      runCommandElabM act ctx s =
        .error e { commandState := t, parserState := s.parserState }) ∧
    (runCommandElabM act ctx s).state.parserState = s.parserState := by
  refine ⟨fun a t h => ?_, fun e t h => ?_, ?_⟩
  · simp only [runCommandElabM, getCmdContext, h]
  · simp only [runCommandElabM, getCmdContext, h]
  · simp only [runCommandElabM, getCmdContext]
    cases act _ _ <;> rfl

theorem runCommandElabM_spec_witness :
    runCommandElabM (demoX.elabCommand 5) demoCtx (demoState 0 [] [4]) =
      .ok () { commandState := { env := [5], messages := [4], cmdPos := 0, scopes := [] },
               parserState := { pos := 0, recovering := false } } ∧
    runCommandElabM (demoX.elabCommand 7) demoCtx (demoState 0 [] [4]) =
      .error .silent
        { commandState := { env := [7], messages := [4], cmdPos := 0, scopes := [] },
          parserState := { pos := 0, recovering := false } } :=
  ⟨(runCommandElabM_spec (demoX.elabCommand 5) demoCtx (demoState 0 [] [4])).1 ()
      { env := [5], messages := [4], cmdPos := 0, scopes := [] } rfl,
   (runCommandElabM_spec (demoX.elabCommand 7) demoCtx (demoState 0 [] [4])).2.1 .silent
      { env := [7], messages := [4], cmdPos := 0, scopes := [] } rfl⟩

/-! ## C31 -/

/-- The classifier does not use the parser of the externals. -/
theorem logElabException_congr_parse {K : Carrier} (X : Externals K)
    (pc : K.Env → ParserContextCore K → ModuleParserState → List K.Message →
      K.Stx × ModuleParserState × List K.Message)
    (e : Exception K) (c : Command.Context K) (s : Command.State K) :
    logElabException { X with parseCommand := pc } e c s = logElabException X e c s := by
  cases e <;> rfl

/-- C31: for every parser `pc`, a step calls `pc` on the environment and the
log of the elaboration state it is given and on the parser state it is given;
the log that `pc` returns is the log of the state that the step returns on the
end of input or an exit command, and the log of the state that the elaborator
receives on a regular command. -/
theorem processCommand_parse_input {K : Carrier} (X : Externals K)
    (ctx : ParserContextCore K) (s : State K) :
    ∀ pc : K.Env → ParserContextCore K → ModuleParserState → List K.Message →
        K.Stx × ModuleParserState × List K.Message,
      processCommand { X with parseCommand := pc } ctx s =
        if X.isEOI (pc s.commandState.env ctx s.parserState s.commandState.messages).1 = false ∧
            X.isExitCommand
              (pc s.commandState.env ctx s.parserState s.commandState.messages).1 = false then
          match X.elabCommand
              (pc s.commandState.env ctx s.parserState s.commandState.messages).1
              { fileName := ctx.fileName, fileMap := ctx.fileMap }
              { env := s.commandState.env,
                messages :=
                  (pc s.commandState.env ctx s.parserState s.commandState.messages).2.2,
                cmdPos := s.parserState.pos,
                scopes := s.commandState.scopes } with
          | .ok _ t =>
            .ok false
              { commandState := t,
                parserState :=
                  (pc s.commandState.env ctx s.parserState s.commandState.messages).2.1 }
          | .error e t =>
            .ok false
              { commandState :=
                  (logElabException X e { fileName := ctx.fileName, fileMap := ctx.fileMap }
                    t).state,
                parserState :=
                  (pc s.commandState.env ctx s.parserState s.commandState.messages).2.1 }
        else
          .ok true
            { commandState :=
                { env := s.commandState.env,
                  messages :=
                    (pc s.commandState.env ctx s.parserState s.commandState.messages).2.2,
                  cmdPos := s.parserState.pos,
                  scopes := s.commandState.scopes },
              parserState :=
                (pc s.commandState.env ctx s.parserState s.commandState.messages).2.1 } := by
  intro pc
  rw [processCommand_eq]
  simp only [elabResult, nextCommand, afterParse, cmdContext]
  cases h1 : X.isEOI (pc s.commandState.env ctx s.parserState s.commandState.messages).1 <;>
    cases h2 : X.isExitCommand
      (pc s.commandState.env ctx s.parserState s.commandState.messages).1
  · rw [if_pos rfl, if_pos rfl, if_pos ⟨rfl, rfl⟩]
    cases X.elabCommand _ _ _ with
    | ok a t => rfl
    | error e t => simp only [logElabException_congr_parse]
  · simp
  · simp
  · simp

theorem processCommand_parse_input_witness :
    processCommand
        { demoX with
          parseCommand := fun (env : List Nat) _ ps msgs =>
            (demoStream.getD ps.pos 0, { ps with pos := ps.pos + 1 }, env.length :: msgs) }
        demoCtx (demoState 1 [5] [4]) =
      .ok false
        { commandState := { env := [7, 5], messages := [1, 4], cmdPos := 1, scopes := [] },
          parserState := { pos := 2, recovering := false } } ∧
    (stepN
        { demoX with
          parseCommand := fun (env : List Nat) _ ps msgs =>
            (demoStream.getD ps.pos 0, { ps with pos := ps.pos + 1 }, env.length :: msgs) }
        demoCtx 2 (demoState 0 [] [])).commandState.messages = [1, 0] :=
  ⟨processCommand_parse_input demoX demoCtx (demoState 1 [5] [4])
      (fun (env : List Nat) _ ps msgs =>
        (demoStream.getD ps.pos 0, { ps with pos := ps.pos + 1 }, env.length :: msgs)),
   by decide⟩

/-! ## C32 -/

/-- C32: `getCmdContext` returns the command context made of the file name
and the file map of the parser context, and the driver state it is given; the
context is the same for any two driver states, and in every iteration of the
loop it is the context on which the elaborator is called and, when the
elaborator fails, the one on which the classifier is called. -/
theorem getCmdContext_spec {K : Carrier} (X : Externals K) (ctx : ParserContextCore K)
    (s : State K) :
    (getCmdContext ctx s).1 = { fileName := ctx.fileName, fileMap := ctx.fileMap } ∧
    (getCmdContext ctx s).2 = s ∧
    (∀ s1 s2 : State K, (getCmdContext ctx s1).1 = (getCmdContext ctx s2).1) ∧
    (∀ (s0 : State K) (n : Nat),
      isRegular X (nextCommand X ctx (stepN X ctx n s)) →
      processCommand X ctx (stepN X ctx n s) =
        match X.elabCommand (nextCommand X ctx (stepN X ctx n s)) (getCmdContext ctx s0).1
            (afterParse X ctx (stepN X ctx n s)).commandState with
        | .ok _ t =>
          .ok false
            { commandState := t,
              parserState := (afterParse X ctx (stepN X ctx n s)).parserState }
        | .error e t =>
          .ok false
            { commandState := (logElabException X e (getCmdContext ctx s0).1 t).state,
              parserState := (afterParse X ctx (stepN X ctx n s)).parserState }) := by
  refine ⟨rfl, rfl, fun _ _ => rfl, fun s0 n hreg => ?_⟩
  rw [processCommand_eq, if_pos hreg.1, if_pos hreg.2]
  rfl

theorem getCmdContext_spec_witness :
    (getCmdContext demoCtx (demoState 0 [] [])).1 = { fileName := "demo", fileMap := () } ∧
    processCommand demoX demoCtx (stepN demoX demoCtx 1 (demoState 0 [] [])) =
      .ok false
        { commandState := { env := [7, 5], messages := [], cmdPos := 1, scopes := [] },
          parserState := { pos := 2, recovering := false } } :=
  ⟨(getCmdContext_spec demoX demoCtx (demoState 0 [] [])).1,
   (getCmdContext_spec demoX demoCtx (demoState 0 [] [])).2.2.2 (demoState 9 [3] [3]) 1
      (by decide)⟩

/-! ## C33 -/

/-- C33: the environment, `cmdPos` and the scopes of the state that the
classifier returns are those of the given state on the arms that do not call
`mkMessage` (tag 1 and tag 5), and those of the state that `mkMessage`
returns on the arms that call it. -/
theorem logElabException_frame {K : Carrier} (X : Externals K) (e : Exception K)
    (c : Command.Context K) (s : Command.State K) :
    (match classifierData X e with
      | none =>
        (logElabException X e c s).state.env = s.env ∧
        (logElabException X e c s).state.cmdPos = s.cmdPos ∧
        (logElabException X e c s).state.scopes = s.scopes
      | some d =>
        (logElabException X e c s).state.env = (X.mkMessage d none c s).2.env ∧
        (logElabException X e c s).state.cmdPos = (X.mkMessage d none c s).2.cmdPos ∧
        (logElabException X e c s).state.scopes = (X.mkMessage d none c s).2.scopes) ∧
    (∀ m, (logElabException X (.msg m) c s).state.env = s.env ∧
      (logElabException X (.msg m) c s).state.cmdPos = s.cmdPos ∧
      (logElabException X (.msg m) c s).state.scopes = s.scopes) ∧
    ((logElabException X .silent c s).state.env = s.env ∧
      (logElabException X .silent c s).state.cmdPos = s.cmdPos ∧
      (logElabException X .silent c s).state.scopes = s.scopes) := by
  refine ⟨?_, fun _ => ⟨rfl, rfl, rfl⟩, ⟨rfl, rfl, rfl⟩⟩
  cases e with
  | msg m => exact ⟨rfl, rfl, rfl⟩
  | silent => exact ⟨rfl, rfl, rfl⟩
  | meta x => exact ⟨rfl, rfl, rfl⟩
  | other t x => exact ⟨rfl, rfl, rfl⟩
  | kernel k =>
    simp only [classifierData, logElabException, logMkMessage]
    split <;> exact ⟨rfl, rfl, rfl⟩

/-! ## C34 -/

/-- C34: for every environment creation function `mk` and every
`processHeader` function `ph`, the entry point calls `mk` with the trust level
0 and, when that succeeds, `ph` with the trust level 0. -/
theorem testFrontend_trust_level {K : Carrier} (X : Externals K) (S : SetupExternals K)
    (fuel : Nat) (input : String) (fn : Option String) (w : K.World) :
    ∀ (mk : Nat → K.World → Result K.IOError K.World K.Env)
      (ph : K.Stx → List K.Message → ParserContextCore K → Nat → K.World →
        Result K.IOError K.World (K.Env × List K.Message)),
      testFrontend X { S with mkEmptyEnvironment := mk, processHeader := ph } fuel input fn w =
        match mk 0 w with
        | .ok env w1 =>
          match ph
              (S.parseHeader env (S.mkParserContextCore env input (resolvedFileName S fn))).1
              (S.parseHeader env (S.mkParserContextCore env input (resolvedFileName S fn))).2.2
              (S.mkParserContextCore env input (resolvedFileName S fn)) 0 w1 with
          | .ok p w2 =>
            (processCommandsAux X (S.mkParserContextCore env input (resolvedFileName S fn))
              fuel
              (initialState S p
                (S.parseHeader env
                  (S.mkParserContextCore env input (resolvedFileName S fn))).2.1)).map
              (fun r => .ok (r.state.commandState.env, r.state.commandState.messages) w2)
          | .error e w2 => some (.error e w2)
        | .error e w1 => some (.error e w1) := by
  intro mk ph
  cases hmk : mk 0 w with
  | ok env w1 =>
    rw [testFrontend_eq X { S with mkEmptyEnvironment := mk, processHeader := ph } fuel input fn
      w w1 env hmk]
    simp only [testFrontend_block_55, resolvedFileName, initialState]
    cases ph _ _ _ 0 w1 <;> rfl
  | error e w1 =>
    simp only [testFrontend, hmk]

theorem testFrontend_trust_level_witness :
    testFrontend demoX
        { demoS with
          mkEmptyEnvironment := fun t w => if t = 0 then .ok [] w else .error t w
          processHeader := fun hdr msgs _ t w => .ok ([hdr, t], msgs) w }
        3 "ab" none () =
      some (.ok ([6, 9, 2, 0], []) ()) :=
  testFrontend_trust_level demoX demoS 3 "ab" none ()
    (fun t w => if t = 0 then .ok [] w else .error t w)
    (fun hdr msgs _ t w => .ok ([hdr, t], msgs) w)

end Frontend
